import Mathlib

/-!
Verification development for the ResearStudio client-side virtual file
system.  The definitions below are a shallow embedding of:

* `frontend/lib/utils.ts` — `normalizeFilename`
* `frontend/lib/path-utils.ts` — `PathUtils.normalizePath`
* the `FileSystemManager` class of the computer-view module (namespace
  `FSM1` below)
* the `EnhancedFileSystemManager` class of the enhanced file-system
  module (namespace `EFSM` below)

JavaScript machine state is modelled explicitly: the `Map` of file
records becomes an association list with `Map.set`-like replacement
semantics, `Date.now()` becomes an explicit `now : Nat` parameter,
`EventEmitter.emit` appends to an `events` log, thrown exceptions become
`Except String`, and `undefined`-able fields become `Option`.
-/

/-! ## Generic association-list helpers (JS `Map` with string keys) -/

/-- Lookup of the first entry with the given key (JS `Map.get`; keys are
unique in a real `Map`, and all constructions below preserve that). -/
def alGet {α : Type} : List (String × α) → String → Option α
  | [], _ => none
  | (k', v) :: rest, k => if k' = k then some v else alGet rest k

/-- JS `Map.set`: replace the entry in place if the key is present
(keeping its position), otherwise append a new entry. -/
def alSet {α : Type} : List (String × α) → String → α → List (String × α)
  | [], k, v => [(k, v)]
  | (k', v') :: rest, k, v =>
    if k' = k then (k, v) :: rest else (k', v') :: alSet rest k v

/-- JS `Map.delete`: remove the entry with the given key. -/
def alDel {α : Type} : List (String × α) → String → List (String × α)
  | [], _ => []
  | (k', v') :: rest, k => if k' = k then rest else (k', v') :: alDel rest k

/-! ## Generic string helpers mirroring JS string primitives -/

/-- Whether the first list is an initial segment of the second
(JS `String.prototype.startsWith` on the underlying characters). -/
def listStarts : List Char → List Char → Bool
  | [], _ => true
  | _ :: _, [] => false
  | a :: as, b :: bs => a = b && listStarts as bs

/-- JS `s.startsWith(pre)`. -/
def strStarts (s pre : String) : Bool := listStarts pre.data s.data

/-- Whether the first list is a final segment of the second
(JS `String.prototype.endsWith` on the underlying characters). -/
def listEnds (suf l : List Char) : Bool := listStarts suf.reverse l.reverse

/-- JS `s.endsWith(suf)`. -/
def strEnds (s suf : String) : Bool := listEnds suf.data s.data

/-- JS `s.substring(n)` / drop the first `n` characters. -/
def strDrop (s : String) (n : Nat) : String := String.mk (s.data.drop n)

/-- JS `s.substring(0, n)` / keep the first `n` characters. -/
def strTake (s : String) (n : Nat) : String := String.mk (s.data.take n)

/-- JS `s.toLowerCase()` (ASCII case fold, which is all the sources use). -/
def lowerStr (s : String) : String := String.mk (s.data.map Char.toLower)

/-- Characters removed by JS `String.prototype.trim` (the ones that can
occur in this code base's inputs). -/
def jsIsSpaceChar (c : Char) : Bool :=
  c = ' ' || c = '\t' || c = '\n' || c = '\r' || c.toNat = 11 || c.toNat = 12 ||
    c.toNat = 160 || c.toNat = 0xFEFF

/-- JS `s.trim()`: strip leading and trailing whitespace. -/
def jsTrim (s : String) : String :=
  String.mk (((s.data.dropWhile jsIsSpaceChar).reverse.dropWhile jsIsSpaceChar).reverse)

/-- Index of the last occurrence of a character, as in JS
`String.prototype.lastIndexOf` (but as an `Option` before the `-1`
encoding is applied). -/
def lastIdxAux (c : Char) : List Char → Option Nat
  | [] => none
  | a :: as =>
    match lastIdxAux c as with
    | some i => some (i + 1)
    | none => if a = c then some 0 else none

/-- JS `s.lastIndexOf(c)`: `-1` when the character does not occur. -/
def jsLastIndexOf (s : String) (c : Char) : Int :=
  match lastIdxAux c s.data with
  | some i => Int.ofNat i
  | none => -1

/-- JS `Array.prototype.slice(b, e)` with negative-index handling. -/
def jsSlice (l : List String) (b e : Int) : List String :=
  let n : Int := Int.ofNat l.length
  let b' : Int := if b < 0 then max 0 (n + b) else min b n
  let e' : Int := if e < 0 then max 0 (n + e) else min e n
  (l.take e'.toNat).drop b'.toNat

/-- JS array indexing `l[i]`: `undefined` (`none`) when out of bounds or
negative. -/
def jsArrGet (l : List String) (i : Int) : Option String :=
  if i < 0 then none else l.get? i.toNat

/-- JS `x || d` for an optional string: the default is used when the
value is absent or the empty string (falsy). -/
def jsOrStr (o : Option String) (d : String) : String :=
  match o with
  | some v => if v = "" then d else v
  | none => d

/-- Size in bytes of the UTF-8 encoding of one character; `new
Blob([s]).size` is the sum of these over the characters of `s`. -/
def utf8CharSize (c : Char) : Nat :=
  if c.toNat < 0x80 then 1
  else if c.toNat < 0x800 then 2
  else if c.toNat < 0x10000 then 3
  else 4

/-- JS `new Blob([s]).size`: UTF-8 byte length of `s`. -/
def utf8Size (s : String) : Nat := s.data.foldl (fun n c => n + utf8CharSize c) 0

/-! ## `frontend/lib/path-utils.ts` — `PathUtils.normalizePath`

The source is `path.replace(/^\/+|\/+$/g, '').replace(/\/+/g, '/')`:
strip every leading and trailing `/`, then collapse each internal run of
`/` to a single `/`.  The two regex replaces are modelled by the three
character-list passes below. -/

namespace PathUtils

/-- Drop the leading run of `/` characters (the `^\/+` alternative of the
first regex). -/
def dropLeadSlash : List Char → List Char
  | [] => []
  | c :: rest => if c = '/' then dropLeadSlash rest else c :: rest

/-- Drop the trailing run of `/` characters (the `\/+$` alternative of
the first regex). -/
def dropTrailSlash : List Char → List Char
  | [] => []
  | c :: rest =>
    match dropTrailSlash rest with
    | [] => if c = '/' then [] else [c]
    | r => c :: r

/-- Collapse each run of `/` characters to a single `/` (the second
regex, `replace(/\/+/g, '/')`). -/
def collapseSlash : List Char → List Char
  | [] => []
  | [c] => [c]
  | c :: d :: rest =>
    if c = '/' ∧ d = '/' then collapseSlash (d :: rest)
    else c :: collapseSlash (d :: rest)

/-- `PathUtils.normalizePath` from `frontend/lib/path-utils.ts`. -/
def normalizePath (path : String) : String :=
  if path = "" then ""
  else String.mk (collapseSlash (dropTrailSlash (dropLeadSlash path.data)))

end PathUtils

/-! ## `frontend/lib/utils.ts` — `normalizeFilename` -/

/-- `normalizeFilename` from `frontend/lib/utils.ts`: trim, strip one
leading `/`, strip one leading `./`, then strip one case-insensitive
`workspace/` or `workspace\` prefix (first match wins, as in the
source's `break`). -/
def normalizeFilename (filename : String) : String :=
  if filename = "" then ""
  else
    let n0 := jsTrim filename
    let n1 := if strStarts n0 "/" then strDrop n0 1 else n0
    let n2 := if strStarts n1 "./" then strDrop n1 2 else n1
    let lowerN := lowerStr n2
    if strStarts lowerN "workspace/" then strDrop n2 10
    else if strStarts lowerN "workspace\\" then strDrop n2 10
    else n2

/-! ## `EnhancedFileSystemManager` (part_004)

State of one manager instance.  The JS `Map<string, FileSystemNode>` is
an association list, `Date.now()` is an explicit `now` argument,
`emit(event, payload)` appends to the `events` log, and exceptions are
`Except String`.  The `children` arrays stored on directory nodes in the
source are write-only placeholders (tree views are derived from the
`parent` links by `buildTreeStructure`), so they are omitted from the
record. -/

namespace EFSM

/-- The `type` field of a `FileSystemNode`. -/
inductive NodeType where
  | file
  | directory
deriving DecidableEq

/-- A `FileSystemNode` record (part_004), minus the placeholder
`children` array. -/
structure Node where
  path : String
  name : String
  type : NodeType
  content : Option String := none
  size : Option Nat := none
  lastModified : Nat
  parent : Option String := none
  isDirty : Bool
  isNew : Bool
  isLocked : Bool
  isOpen : Bool
  isActive : Bool
  history : Option (List String) := none
  historyIndex : Option Int := none
deriving DecidableEq

/-- The mutable state of an `EnhancedFileSystemManager` instance
(`syncTimer` is never set in the source and is omitted). -/
structure EState where
  taskId : String
  fileMap : List (String × Node)
  openTabs : List String
  activeTab : Option String
  events : List (String × String)
deriving DecidableEq

/-- `emit(name, payload)`: record the event. -/
def emit (s : EState) (name payload : String) : EState :=
  { s with events := s.events ++ [(name, payload)] }

/-- Store a node under a key (in-place mutation of a node that is in the
map, or `fileMap.set`). -/
def setNode (s : EState) (k : String) (n : Node) : EState :=
  { s with fileMap := alSet s.fileMap k n }

/-- `normalizePath` (the private path helper of the class): empty paths
become `/`, everything else is given a leading slash. -/
def normalizePath (path : String) : String :=
  if path = "" then "/"
  else if path = "/" then "/"
  else if strStarts path "/" then path
  else "/" ++ path

/-- `getParentPath`. -/
def getParentPath (path : String) : String :=
  let n := normalizePath path
  if n = "/" then "/"
  else
    let lastSlash := jsLastIndexOf n '/'
    if lastSlash ≤ 0 then "/" else strTake n lastSlash.toNat

/-- `getFileName`. -/
def getFileName (path : String) : String :=
  let n := normalizePath path
  if n = "/" then "root"
  else
    let lastSlash := jsLastIndexOf n '/'
    strDrop n (lastSlash + 1).toNat

/-- `joinPath`. -/
def joinPath (parent name : String) : String :=
  let np := normalizePath parent
  if np = "/" then "/" ++ name else np ++ "/" ++ name

/-- One character of the `^[a-zA-Z0-9._-]+$` file-name regex. -/
def isWordChar (c : Char) : Bool :=
  ('a' ≤ c && c ≤ 'z') || ('A' ≤ c && c ≤ 'Z') || ('0' ≤ c && c ≤ '9') ||
    c = '.' || c = '_' || c = '-'

/-- `isValidFileName`: the regex test plus the two length bounds. -/
def isValidFileName (name : String) : Bool :=
  (name.data ≠ [] && name.data.all isWordChar) && name.length > 0 &&
    name.length < 255

/-- The node built by `createFileNode` before it is stored. -/
def mkFileNode (path name parentPath content : String) (isNewFlag : Bool)
    (now : Nat) : Node :=
  { path := normalizePath path
    name := name
    type := .file
    content := some content
    size := some (utf8Size content)
    parent := some (normalizePath parentPath)
    lastModified := now
    isDirty := isNewFlag
    isNew := isNewFlag
    isLocked := isNewFlag
    isOpen := false
    isActive := false
    history := some [content]
    historyIndex := some 0 }

/-- `createFileNode`: build the node, store it, and return it. -/
def createFileNode (s : EState) (path name parentPath content : String)
    (isNewFlag : Bool) (now : Nat) : EState × Node :=
  let node := mkFileNode path name parentPath content isNewFlag now
  ({ s with fileMap := alSet s.fileMap (normalizePath path) node }, node)

/-- The node built for a directory by `ensureDirectory` and
`createDirectory`. -/
def mkDirNode (path name : String) (parent : Option String)
    (isNewFlag : Bool) (now : Nat) : Node :=
  { path := path
    name := name
    type := .directory
    content := none
    size := none
    parent := parent
    lastModified := now
    isDirty := false
    isNew := isNewFlag
    isLocked := false
    isOpen := false
    isActive := false
    history := none
    historyIndex := none }

/-- `ensureDirectory`, with explicit fuel for the recursion up the
parent chain.  The wrapper below supplies more fuel than the parent
chain can be long (each step strictly shortens the path), so the
fuel-exhausted branch is unreachable. -/
def ensureDirectoryGo : Nat → EState → String → Option String → Nat → EState
  | 0, s, _, _, _ => s
  | fuel + 1, s, path, nameOpt, now =>
    let n := normalizePath path
    if n = "/" then s
    else if (alGet s.fileMap n).isSome then s
    else
      let parentPath := getParentPath n
      let dirName := jsOrStr nameOpt (getFileName n)
      let s1 := ensureDirectoryGo fuel s parentPath none now
      { s1 with fileMap := alSet s1.fileMap n (mkDirNode n dirName (some parentPath) false now) }

/-- `ensureDirectory(path, name?)`. -/
def ensureDirectory (s : EState) (path : String) (nameOpt : Option String)
    (now : Nat) : EState :=
  ensureDirectoryGo (path.length + 1) s path nameOpt now

/-- The root node installed by `initializeRootDirectory`. -/
def rootNode (now : Nat) : Node :=
  { path := "/"
    name := "resear-pro-task"
    type := .directory
    content := none
    size := none
    parent := none
    lastModified := now
    isDirty := false
    isNew := false
    isLocked := false
    isOpen := false
    isActive := false
    history := none
    historyIndex := none }

/-- The constructor: store the task id and install the root directory. -/
def initState (taskId : String) (now : Nat) : EState :=
  { taskId := taskId
    fileMap := [("/", rootNode now)]
    openTabs := []
    activeTab := none
    events := [] }

/-- The body of `activateTab` after its `openTabs.includes` guard: clear
the previous active node's flag, then set the new one and record it as
the active tab (no state change if the path has no node). -/
def activateTabCore (s : EState) (n : String) : EState :=
  let s1 :=
    match s.activeTab with
    | some prev =>
      match alGet s.fileMap prev with
      | some prevNode => setNode s prev { prevNode with isActive := false }
      | none => s
    | none => s
  match alGet s1.fileMap n with
  | some node =>
    emit { setNode s1 n { node with isActive := true } with activeTab := some n }
      "tabActivated" n
  | none => s1

/-- `openFile(path)`: create the node if missing, mark it open, add it
to the tab list, activate it, and emit `fileOpened`.  The source ends
with `this.activateTab(normalizedPath)`; at that point the path is
guaranteed to be in `openTabs`, so that call is exactly
`activateTabCore`. -/
def openFile (s : EState) (path : String) (now : Nat) : EState :=
  let n := normalizePath path
  let found := alGet s.fileMap n
  let s1 :=
    match found with
    | some _ => s
    | none => (createFileNode s n (getFileName n) (getParentPath n) "" false now).1
  let node :=
    match found with
    | some nd => nd
    | none => mkFileNode n (getFileName n) (getParentPath n) "" false now
  let s2 := setNode s1 n { node with isOpen := true }
  let s3 :=
    if n ∈ s2.openTabs then s2
    else { s2 with openTabs := s2.openTabs ++ [n] }
  emit (activateTabCore s3 n) "fileOpened" n

/-- `activateTab(path)`: paths not currently open are routed through
`openFile` (which re-enters the core activation), otherwise the core
activation runs directly. -/
def activateTab (s : EState) (path : String) (now : Nat) : EState :=
  let n := normalizePath path
  if n ∈ s.openTabs then activateTabCore s n else openFile s n now

/-- `closeFile(path)`: drop the tab, clear the node's open/active flags,
and when the active tab was closed activate the adjacent tab at
`min(closedIndex, newLength - 1)` (or none when no tabs remain). -/
def closeFile (s : EState) (path : String) (now : Nat) : EState :=
  let n := normalizePath path
  match s.openTabs.findIdx? (fun t => t == n) with
  | none => s
  | some tabIndex =>
    let s1 :=
      match alGet s.fileMap n with
      | some node => setNode s n { node with isOpen := false, isActive := false }
      | none => s
    let s2 := { s1 with openTabs := s1.openTabs.eraseIdx tabIndex }
    let s3 :=
      if s2.activeTab = some n then
        if s2.openTabs.length > 0 then
          let newIndex := min tabIndex (s2.openTabs.length - 1)
          match s2.openTabs.get? newIndex with
          | some t => activateTab s2 t now
          | none => s2
        else { s2 with activeTab := none }
      else s2
    emit s3 "fileClosed" n

/-- `saveToHistory(node, content)`: truncate any redo tail, push the
snapshot, and cap the log at 50 entries (dropping the oldest and
re-pointing the index). -/
def saveToHistory (node : Node) (content : String) : Node :=
  let h0 := node.history.getD []
  let i0 : Int := if node.history = none then -1 else node.historyIndex.getD (-1)
  let h1 := if i0 < (Int.ofNat h0.length) - 1 then jsSlice h0 0 (i0 + 1) else h0
  let h2 := h1 ++ [content]
  let h3 := if h2.length > 50 then jsSlice h2 (-50) (Int.ofNat h2.length) else h2
  let i3 : Int := Int.ofNat (h3.length - 1)
  { node with history := some h3, historyIndex := some i3 }

/-- `canUndo(path)`. -/
def canUndo (s : EState) (path : String) : Bool :=
  let n := normalizePath path
  match alGet s.fileMap n with
  | none => false
  | some node => node.history.isSome && node.historyIndex.getD (-1) > 0

/-- `canRedo(path)`. -/
def canRedo (s : EState) (path : String) : Bool :=
  let n := normalizePath path
  match alGet s.fileMap n with
  | none => false
  | some node =>
    node.history.isSome &&
      node.historyIndex.getD (-1) < Int.ofNat (node.history.getD []).length - 1

/-- `undo(path)`: guarded by `canUndo`; decrement the cursor and restore
that snapshot. -/
def undo (s : EState) (path : String) (now : Nat) : EState :=
  let n := normalizePath path
  match alGet s.fileMap n with
  | none => s
  | some node =>
    if !canUndo s n then s
    else
      let i0 : Int := node.historyIndex.getD 0
      let i1 := i0 - 1
      let node1 := { node with historyIndex := some i1 }
      let node2 :=
        if node1.history.isSome && i1 ≥ 0 then
          { node1 with content := jsArrGet (node1.history.getD []) i1 }
        else node1
      emit (setNode s n { node2 with lastModified := now }) "fileUndone" n

/-- `redo(path)`: guarded by `canRedo`; increment the cursor and restore
that snapshot. -/
def redo (s : EState) (path : String) (now : Nat) : EState :=
  let n := normalizePath path
  match alGet s.fileMap n with
  | none => s
  | some node =>
    if !canRedo s n then s
    else
      let i0 : Int := node.historyIndex.getD (-1)
      let i1 := i0 + 1
      let node1 := { node with historyIndex := some i1 }
      let node2 :=
        if node1.history.isSome && i1 < Int.ofNat (node1.history.getD []).length then
          { node1 with content := jsArrGet (node1.history.getD []) i1 }
        else node1
      emit (setNode s n { node2 with lastModified := now }) "fileRedone" n

/-- `updateFileContent(path, content)`: no-op on missing/non-file/locked
nodes; otherwise snapshot the old content, store the new one, and
recompute `isDirty` against the (post-snapshot) first history entry. -/
def updateFileContent (s : EState) (path content : String) (now : Nat) : EState :=
  let n := normalizePath path
  match alGet s.fileMap n with
  | none => s
  | some node =>
    if node.type ≠ .file then s
    else if node.isLocked then s
    else
      let node1 := saveToHistory node (node.content.getD "")
      let node2 := { node1 with
        content := some content
        size := some (utf8Size content)
        lastModified := now }
      let wasDirty := node.isDirty
      let newDirty : Bool := content ≠ jsOrStr (jsArrGet (node2.history.getD []) 0) ""
      let s1 := setNode s n { node2 with isDirty := newDirty }
      if wasDirty ≠ newDirty then emit s1 "fileUpdated" n else s1

/-- `saveFile(path)`: reset the history baseline to the current content
and clear the dirty/new/locked flags. -/
def saveFile (s : EState) (path : String) (now : Nat) : EState :=
  let n := normalizePath path
  match alGet s.fileMap n with
  | none => s
  | some node =>
    if node.type ≠ .file then s
    else
      let node1 :=
        match node.content with
        | some c => { node with history := some [c], historyIndex := some 0 }
        | none => node
      let node2 := { node1 with
        isDirty := false
        isNew := false
        isLocked := false
        lastModified := now }
      emit (setNode s n node2) "fileSaved" n

/-- `revertFile(path)`: restore the first history snapshot. -/
def revertFile (s : EState) (path : String) : EState :=
  let n := normalizePath path
  match alGet s.fileMap n with
  | none => s
  | some node =>
    if node.type ≠ .file then s
    else
      match node.history with
      | none => s
      | some h =>
        if h.length = 0 then s
        else
          let node1 := { node with
            content := h.get? 0
            isDirty := false
            historyIndex := some 0 }
          emit (setNode s n node1) "fileReverted" n

/-- `deleteNode`, with explicit fuel for the recursion over descendants
(the wrapper supplies one unit of fuel per map entry plus one, which
bounds the nesting depth; the fuel-exhausted branch is unreachable). -/
def deleteNodeGo : Nat → EState → String → Nat → Except String EState
  | 0, s, _, _ => Except.ok s
  | fuel + 1, s, path, now =>
    let n := normalizePath path
    if n = "/" then Except.error "Cannot delete root directory"
    else
      match alGet s.fileMap n with
      | none => Except.ok s
      | some node =>
        let s1 := if node.isOpen then closeFile s n now else s
        let step := fun (acc : EState) (childPath : String) =>
          deleteNodeGo fuel acc childPath now
        let res :=
          if node.type = .directory then
            ((s1.fileMap.filter (fun kv => kv.2.parent = some n)).map
              (fun kv => kv.2.path)).foldlM step s1
          else Except.ok s1
        match res with
        | Except.error e => Except.error e
        | Except.ok s2 =>
          Except.ok (emit { s2 with fileMap := alDel s2.fileMap n } "nodeDeleted" n)

/-- `deleteNode(path)`: root deletion throws before any state change. -/
def deleteNode (s : EState) (path : String) (now : Nat) : Except String EState :=
  deleteNodeGo (s.fileMap.length + 1) s path now

/-- `updateChildrenPaths`, with explicit fuel for the directory
recursion (unreachable exhaustion, as for `deleteNode`).  The source
iterates the live map; entries re-inserted under their new key no
longer match `parent === oldParentPath` when revisited, so collecting
the matching entries first gives the same result. -/
def updateChildrenPathsGo : Nat → EState → String → String → EState
  | 0, s, _, _ => s
  | fuel + 1, s, oldParent, newParent =>
    let matching := s.fileMap.filter (fun kv => kv.2.parent = some oldParent)
    matching.foldl
      (fun acc kv =>
        let node := kv.2
        let oldPath := node.path
        let newPath := joinPath newParent node.name
        let node1 := { node with path := newPath, parent := some newParent }
        let acc1 := { acc with fileMap := alSet (alDel acc.fileMap oldPath) newPath node1 }
        if node.type = .directory then updateChildrenPathsGo fuel acc1 oldPath newPath
        else acc1)
      s

/-- `renameNode(path, newName)`: the three validation errors are thrown
before any state is touched. -/
def renameNode (s : EState) (path newName : String) (now : Nat) :
    Except String (EState × Node) :=
  let n := normalizePath path
  match alGet s.fileMap n with
  | none => Except.error ("Node not found: " ++ n)
  | some node =>
    if !isValidFileName newName then Except.error ("Invalid name: " ++ newName)
    else
      let newPath := joinPath (jsOrStr node.parent "/") newName
      if (alGet s.fileMap newPath).isSome then
        Except.error ("Name already exists: " ++ newName)
      else
        let node1 := { node with path := newPath, name := newName, lastModified := now }
        let s1 := { s with fileMap := alSet (alDel s.fileMap n) newPath node1 }
        let s2 :=
          if node1.type = .directory then
            updateChildrenPathsGo (s1.fileMap.length + 1) s1 n newPath
          else s1
        let s3 :=
          match s2.openTabs.findIdx? (fun t => t == n) with
          | some i => { s2 with openTabs := s2.openTabs.set i newPath }
          | none => s2
        let s4 :=
          if s3.activeTab = some n then { s3 with activeTab := some newPath } else s3
        Except.ok (emit s4 "nodeRenamed" n, node1)

/-- `createFile(parentPath, name, content)`: conflict and name
validation are checked before any state is touched. -/
def createFile (s : EState) (parentPath name content : String) (now : Nat) :
    Except String (EState × Node) :=
  let npp := normalizePath parentPath
  let fullPath := joinPath npp name
  if (alGet s.fileMap fullPath).isSome then
    Except.error ("File already exists: " ++ name)
  else if !isValidFileName name then
    Except.error ("Invalid file name: " ++ name)
  else
    let s1 := ensureDirectory s npp none now
    let (s2, node) := createFileNode s1 fullPath name npp content true now
    Except.ok (emit s2 "fileCreated" fullPath, node)

/-- An `ExternalFileNode` from the backend (`children` is optional in
the interface). -/
inductive ExtNode where
  | mk (name : String) (type : NodeType) (content : Option String)
      (size : Option Nat) (children : Option (List ExtNode))

/-- Name accessor for `ExtNode`. -/
def ExtNode.name : ExtNode → String
  | .mk n _ _ _ _ => n

/-- The `fullPath` computed at the top of `processExternalNode`. -/
def extFullPath (parentPath name : String) : String :=
  if parentPath = "/" then "/" ++ name else parentPath ++ "/" ++ name

mutual

/-- `processExternalNode(external, parentPath)`: skip records that are
new or locked, create or update files, and recurse into directories. -/
def processExternalNode (s : EState) (ext : ExtNode) (parentPath : String)
    (now : Nat) : EState :=
  match ext with
  | .mk name ty content sizeOpt children =>
    let fullPath := extFullPath parentPath name
    let existing := alGet s.fileMap fullPath
    if (match existing with
        | some e => e.isNew || e.isLocked
        | none => false) then s
    else
      match ty with
      | .file =>
        (match existing with
        | none =>
          let (s1, node) := createFileNode s fullPath name parentPath (content.getD "") false now
          setNode s1 fullPath { node with isDirty := false, isNew := false, isLocked := false }
        | some e =>
          if content.isSome && e.content ≠ content then
            setNode s fullPath { e with
              content := content
              size := some (match sizeOpt with
                | some z => if z = 0 then utf8Size (content.getD "") else z
                | none => utf8Size (content.getD ""))
              lastModified := now
              isDirty := false }
          else s)
      | .directory =>
        let s1 := ensureDirectory s fullPath (some name) now
        match children with
        | some cs => processExternalChildren s1 cs fullPath now
        | none => s1
termination_by sizeOf ext
decreasing_by
  simp only [ExtNode.mk.sizeOf_spec]
  simp
  omega

/-- The `for (const child of external.children)` loop of
`processExternalNode`. -/
def processExternalChildren (s : EState) (cs : List ExtNode)
    (parentPath : String) (now : Nat) : EState :=
  match cs with
  | [] => s
  | c :: rest =>
    processExternalChildren (processExternalNode s c parentPath now) rest parentPath now
termination_by sizeOf cs
decreasing_by all_goals (simp [List.cons.sizeOf_spec]; try omega)

end

/-- `clearNonUserFiles`: drop every non-root record that is neither new
nor locked. -/
def clearNonUserFiles (s : EState) : EState :=
  let toRemove :=
    (s.fileMap.filter (fun kv => kv.1 ≠ "/" && !kv.2.isNew && !kv.2.isLocked)).map
      (fun kv => kv.1)
  { s with fileMap := toRemove.foldl (fun m p => alDel m p) s.fileMap }

/-- `mergeExternalStructure(externalStructure)`. -/
def mergeExternalStructure (s : EState) (ext : ExtNode) (now : Nat) : EState :=
  let s1 := clearNonUserFiles s
  let s2 :=
    match ext with
    | .mk _ _ _ _ (some cs) => processExternalChildren s1 cs "/" now
    | .mk _ _ _ _ none => s1
  emit s2 "structureMerged" ""

/-- `updateFileContentMap(contentMap)`: for each entry whose content
differs, snapshot and overwrite; `isDirty` is cleared only for records
that are neither new nor locked. -/
def updateFileContentMap (s : EState) (contentMap : List (String × String))
    (now : Nat) : EState :=
  let step := fun (acc : EState × Bool) (entry : String × String) =>
    let n := normalizePath entry.1
    let content := entry.2
    match alGet acc.1.fileMap n with
    | some node =>
      if node.type = .file then
        if node.content ≠ some content then
          let node1 := saveToHistory node (node.content.getD "")
          let node2 := { node1 with
            content := some content
            size := some (utf8Size content)
            lastModified := now }
          let node3 :=
            if !node2.isNew && !node2.isLocked then { node2 with isDirty := false }
            else node2
          (setNode acc.1 n node3, true)
        else acc
      else acc
    | none => acc
  let res := contentMap.foldl step (s, false)
  if res.2 then emit res.1 "contentMapUpdated" "" else res.1

/-- One call in a user session driving the tab manager. -/
inductive TabOp where
  | openOp (p : String) (t : Nat)
  | activateOp (p : String) (t : Nat)
  | closeOp (p : String) (t : Nat)

/-- Apply one tab operation. -/
def applyOp (s : EState) : TabOp → EState
  | .openOp p t => openFile s p t
  | .activateOp p t => activateTab s p t
  | .closeOp p t => closeFile s p t

/-- Run a sequence of tab operations. -/
def runOps (s : EState) : List TabOp → EState
  | [] => s
  | op :: rest => runOps (applyOp s op) rest

end EFSM

/-! ## `FileSystemManager` (part_001, computer-view module)

The flat tab/file manager backing the editor panel.  File keys are
produced by `normalizeFilename`.  The subscriber set only drives UI
re-rendering (`notify` / `forceNotify` have no effect on the file
state), so it is not part of the state; `silentMode` is kept because it
is state the class stores. -/

namespace FSM1

/-- A `FileState` record (part_001).  `fileType` is the string tag of
the source's union type. -/
structure FileState where
  id : String
  filename : String
  content : String
  originalContent : String
  isDirty : Bool
  isLoading : Bool
  lastSaved : Nat
  fileType : String
  isUrl : Bool
  isEditable : Bool
  contentMode : String
deriving DecidableEq

/-- A `Partial<FileState>` argument (every field optional). -/
structure MetaPartial where
  id : Option String := none
  filename : Option String := none
  content : Option String := none
  originalContent : Option String := none
  isDirty : Option Bool := none
  isLoading : Option Bool := none
  lastSaved : Option Nat := none
  fileType : Option String := none
  isUrl : Option Bool := none
  isEditable : Option Bool := none
  contentMode : Option String := none
deriving DecidableEq

/-- `Object.assign(existingFile, metaData)`: overwrite the fields the
partial carries. -/
def applyMeta (f : FileState) (m : MetaPartial) : FileState :=
  { id := m.id.getD f.id
    filename := m.filename.getD f.filename
    content := m.content.getD f.content
    originalContent := m.originalContent.getD f.originalContent
    isDirty := m.isDirty.getD f.isDirty
    isLoading := m.isLoading.getD f.isLoading
    lastSaved := m.lastSaved.getD f.lastSaved
    fileType := m.fileType.getD f.fileType
    isUrl := m.isUrl.getD f.isUrl
    isEditable := m.isEditable.getD f.isEditable
    contentMode := m.contentMode.getD f.contentMode }

/-- The mutable state of a `FileSystemManager` instance (the virtual
file structure and listener set do not affect the file records and are
omitted). -/
structure FState where
  files : List (String × FileState)
  openTabs : List String
  activeTab : Option String
  silentMode : Bool
deriving DecidableEq

/-- A fresh manager. -/
def initF : FState :=
  { files := [], openTabs := [], activeTab := none, silentMode := false }

/-- `filename.split('.')` on the underlying characters. -/
def splitDot : List Char → List (List Char)
  | [] => [[]]
  | c :: rest =>
    if c = '.' then [] :: splitDot rest
    else
      match splitDot rest with
      | [] => [[c]]
      | h :: t => (c :: h) :: t

/-- `detectFileType(filename)`: dispatch on the lower-cased final
`split('.')` segment. -/
def detectFileType (filename : String) : String :=
  let ext := lowerStr (String.mk ((splitDot filename.data).getLast?.getD []))
  if ext = "" then "text"
  else if ext ∈ ["png", "jpg", "jpeg", "gif", "bmp", "webp", "svg", "ico"] then "image"
  else if ext ∈ ["mp4", "avi", "mov", "wmv", "flv", "webm", "mkv"] then "video"
  else if ext = "pdf" then "pdf"
  else if ext = "html" then "html"
  else if ext = "md" then "markdown"
  else if ext = "py" then "python"
  else if ext ∈ ["mp3", "wav", "aac", "ogg", "m4a"] then "audio"
  else if ext = "csv" then "csv"
  else if ext ∈ ["xls", "xlsx"] then "spreadsheet"
  else if ext ∈ ["doc", "docx"] then "document"
  else if ext ∈ ["ppt", "pptx"] then "presentation"
  else "text"

/-- `openFile(rawFilename, content, fileType?, metaData?)`: create the
record if it is missing (adding a tab unless the name is one of the
special virtual documents); otherwise overwrite the existing record's
`content` and assign the metadata over it. -/
def openFile (s : FState) (rawFilename content : String)
    (fileTypeOpt : Option String) (metaOpt : Option MetaPartial) (now : Nat) :
    FState :=
  let filename := normalizeFilename rawFilename
  let idStr := "file-" ++ filename ++ "-" ++ toString now
  match alGet s.files filename with
  | none =>
    let file : FileState :=
      { id := idStr
        filename := filename
        content := content
        originalContent := content
        isDirty := false
        isLoading := false
        lastSaved := now
        fileType :=
          (match fileTypeOpt with
          | some ft => if ft ≠ "" then ft else detectFileType filename
          | none => detectFileType filename)
        isUrl := (match metaOpt with | some m => m.isUrl.getD false | none => false)
        isEditable := (match metaOpt with | some m => m.isEditable.getD true | none => true)
        contentMode := (match metaOpt with | some m => jsOrStr m.contentMode "text" | none => "text") }
    let s1 := { s with files := alSet s.files filename file }
    let isSpecial := strEnds filename ".jsonsearch" || filename = "Web.html"
    if !isSpecial && filename ∉ s1.openTabs then
      { s1 with openTabs := s1.openTabs ++ [filename] }
    else s1
  | some existing =>
    let e1 := { existing with content := content }
    let e2 := match metaOpt with | some m => applyMeta e1 m | none => e1
    { s with files := alSet s.files filename e2 }

/-- `closeFile(rawFilename)`: remove the tab and replace the active tab
by the adjacent one (`min(index, newLength - 1)`). -/
def closeFile (s : FState) (rawFilename : String) : FState × Bool :=
  let filename := normalizeFilename rawFilename
  match s.openTabs.findIdx? (fun t => t == filename) with
  | none => (s, false)
  | some index =>
    let tabs1 := s.openTabs.eraseIdx index
    let s1 := { s with openTabs := tabs1 }
    let s2 :=
      if s1.activeTab = some filename then
        if tabs1.length > 0 then
          { s1 with activeTab := tabs1.get? (min index (tabs1.length - 1)) }
        else { s1 with activeTab := none }
      else s1
    (s2, true)

/-- `setActiveTab(rawFilename)`: only files present in the store may be
activated. -/
def setActiveTab (s : FState) (rawFilename : String) : FState :=
  let filename := normalizeFilename rawFilename
  if (alGet s.files filename).isSome then { s with activeTab := some filename }
  else s

/-- `updateFileContent(rawFilename, content)`: store the content and
recompute `isDirty` against `originalContent`. -/
def updateFileContent (s : FState) (rawFilename content : String) : FState :=
  let filename := normalizeFilename rawFilename
  match alGet s.files filename with
  | none => s
  | some file =>
    let f1 := { file with content := content, isDirty := content ≠ file.originalContent }
    { s with files := alSet s.files filename f1 }

/-- `saveFile(rawFilename)`: promote the content to the saved baseline;
returns the saved content (or `none` for unknown files). -/
def saveFile (s : FState) (rawFilename : String) (now : Nat) :
    FState × Option String :=
  let filename := normalizeFilename rawFilename
  match alGet s.files filename with
  | none => (s, none)
  | some file =>
    let f1 := { file with originalContent := file.content, isDirty := false, lastSaved := now }
    ({ s with files := alSet s.files filename f1 }, some f1.content)

/-- `revertFile(rawFilename)`: restore `originalContent` for editable
files; returns whether a revert happened. -/
def revertFile (s : FState) (rawFilename : String) : FState × Bool :=
  let filename := normalizeFilename rawFilename
  match alGet s.files filename with
  | none => (s, false)
  | some file =>
    if file.isEditable then
      let f1 := { file with content := file.originalContent, isDirty := false }
      ({ s with files := alSet s.files filename f1 }, true)
    else (s, false)

end FSM1

/-! ## Proof-side predicates and concrete example states

These are specification-side helpers (not source translations): the
invariants the claims talk about, and the concrete states used by the
counterexamples and witnesses. -/

namespace PathUtils

/-- Whether a character list contains two adjacent `/` (used to state
what `collapseSlash` achieves). -/
def hasDbl : List Char → Bool
  | [] => false
  | [_] => false
  | c :: d :: rest => (c = '/' && d = '/') || hasDbl (d :: rest)

end PathUtils

namespace EFSM

/-- At most one record is active, witnessed by the active tab, and every
active record's path is an open tab. -/
def ActiveOk (s : EState) : Prop :=
  ∀ p node, alGet s.fileMap p = some node → node.isActive = true →
    s.activeTab = some p ∧ p ∈ s.openTabs

/-- Every open tab is a normalized path (true of every reachable state,
since tabs are only ever added as `normalizePath` outputs). -/
def TabsNormed (s : EState) : Prop :=
  ∀ t ∈ s.openTabs, normalizePath t = t

/-- The inductive invariant for the tab-manager claims. -/
def Inv (s : EState) : Prop := ActiveOk s ∧ TabsNormed s

/-- Example: a brand-new unsaved file `/f.txt` with content `"local"`
(created through the `createFile` API, so `isNew` and `isLocked` hold). -/
def c1st : EState :=
  match createFile (initState "task" 0) "/" "f.txt" "local" 1 with
  | .ok (s, _) => s
  | .error _ => initState "task" 0

/-- The `/f.txt` record of `c1st`. -/
def c1node : Node := (alGet c1st.fileMap "/f.txt").getD (rootNode 0)

/-- Example: `/f.txt` opened (hence not new, not locked) and then edited
to content `"old"`. -/
def c2st : EState := updateFileContent (openFile (initState "task" 0) "f.txt" 1) "f.txt" "old" 2

/-- The `/f.txt` record of `c2st`. -/
def c2node : Node := (alGet c2st.fileMap "/f.txt").getD (rootNode 0)

/-- Example: the record created by one `openFile "a"` on a fresh state. -/
def c5node : Node :=
  (alGet (runOps (initState "task" 0) [TabOp.openOp "a" 1]).fileMap "/a").getD (rootNode 0)

/-- Example: three open tabs `/a`, `/b`, `/c` with `/b` active. -/
def c7st : EState :=
  activateTab (openFile (openFile (openFile (initState "task" 0) "a" 1) "b" 2) "c" 3) "b" 4

/-- Example: a file record with a two-entry history, cursor at the end. -/
def c8node : Node :=
  { path := "/x"
    name := "x"
    type := .file
    content := some "h1"
    size := some 2
    lastModified := 0
    parent := some "/"
    isDirty := false
    isNew := false
    isLocked := false
    isOpen := false
    isActive := false
    history := some ["h0", "h1"]
    historyIndex := some 1 }

/-- Example state holding `c8node` at `/x`. -/
def c8st : EState :=
  { taskId := "task"
    fileMap := [("/", rootNode 0), ("/x", c8node)]
    openTabs := []
    activeTab := none
    events := [] }

/-- Example: two ordinary files `/a.txt` and `/b.txt`. -/
def c9st : EState := openFile (openFile (initState "task" 0) "a.txt" 1) "b.txt" 2

/-- The `/a.txt` record of `c9st`. -/
def c9node : Node := (alGet c9st.fileMap "/a.txt").getD (rootNode 0)

/-- The `/b.txt` record of `c9st`. -/
def c9nodeB : Node := (alGet c9st.fileMap "/b.txt").getD (rootNode 0)

/-- Example: a brand-new unsaved file `/g.txt` (locked). -/
def c10st : EState :=
  match createFile (initState "task" 0) "/" "g.txt" "draft" 1 with
  | .ok (s, _) => s
  | .error _ => initState "task" 0

/-- The `/g.txt` record of `c10st`. -/
def c10node : Node := (alGet c10st.fileMap "/g.txt").getD (rootNode 0)

/-- Example: an open file `/e.txt` with content `"E"` (not new, not
locked). -/
def c6est : EState := updateFileContent (openFile (initState "task" 0) "e.txt" 1) "e.txt" "E" 2

/-- The `/e.txt` record of `c6est`. -/
def c6enode : Node := (alGet c6est.fileMap "/e.txt").getD (rootNode 0)

end EFSM

namespace FSM1

/-- The per-record dirty invariant of the spec: `isDirty` equals
`content != savedContent` (with `originalContent` as the saved
baseline). -/
def DirtyOk (s : FState) : Prop :=
  ∀ k f, alGet s.files k = some f → f.isDirty = decide (f.content ≠ f.originalContent)

/-- A placeholder record for total `Option.getD` projections. -/
def dummyFile : FileState :=
  { id := ""
    filename := ""
    content := ""
    originalContent := ""
    isDirty := false
    isLoading := false
    lastSaved := 0
    fileType := "text"
    isUrl := false
    isEditable := true
    contentMode := "text" }

/-- Example: `a.txt` opened with `"A"`, then opened again with `"B"`
(the second open hits the existing-record branch). -/
def c3st : FState := openFile (openFile initF "a.txt" "A" none none 1) "a.txt" "B" none none 2

/-- Example: a clean file `w.txt` (content equal to its baseline). -/
def c3wst : FState := openFile initF "w.txt" "W" none none 1

/-- Example: `b.txt` opened with `"A"` (before the clobbering second
open). -/
def c6pre : FState := openFile initF "b.txt" "A" none none 1

/-- The `b.txt` record of `c6pre`. -/
def c6file : FileState := (alGet c6pre.files "b.txt").getD dummyFile

/-- Example: three open tabs `a`, `b`, `c` with `b` active. -/
def c7fst : FState :=
  setActiveTab (openFile (openFile (openFile initF "a" "" none none 1) "b" "" none none 2)
    "c" "" none none 3) "b"

end FSM1

/-! ## Shared lemmas about the association-list primitives -/

theorem alGet_alSet_self {α : Type} (m : List (String × α)) (k : String) (v : α) :
    alGet (alSet m k v) k = some v := by
  induction m with
  | nil => simp [alGet, alSet]
  | cons kv rest ih =>
    obtain ⟨k', v'⟩ := kv
    by_cases h : k' = k
    · subst h
      simp [alGet, alSet]
    · simp [alGet, alSet, h, ih]

theorem alGet_alSet_ne {α : Type} (m : List (String × α)) (k k' : String) (v : α)
    (h : k' ≠ k) : alGet (alSet m k v) k' = alGet m k' := by
  have hne : ¬k = k' := fun hh => h hh.symm
  induction m with
  | nil => simp [alGet, alSet, hne]
  | cons kv rest ih =>
    obtain ⟨k0, v0⟩ := kv
    by_cases h0 : k0 = k
    · subst h0
      simp [alGet, alSet, hne]
    · by_cases h1 : k0 = k'
      · subst h1
        simp [alGet, alSet, h0]
      · simp [alGet, alSet, h0, h1, ih]

/-! ## Lemmas for the idempotence of `PathUtils.normalizePath` (claim C4) -/

namespace PathUtils

theorem dropLeadSlash_head (l : List Char) :
    (dropLeadSlash l).head? ≠ some '/' := by
  induction l with
  | nil => simp [dropLeadSlash]
  | cons c rest ih =>
    by_cases h : c = '/'
    · simpa [dropLeadSlash, h] using ih
    · simp [dropLeadSlash, h]

theorem dropLeadSlash_eq_self (l : List Char) (h : l.head? ≠ some '/') :
    dropLeadSlash l = l := by
  cases l with
  | nil => rfl
  | cons c rest =>
    have : c ≠ '/' := by simpa using h
    simp [dropLeadSlash, this]

theorem dropTrailSlash_getLast (l : List Char) :
    (dropTrailSlash l).getLast? ≠ some '/' := by
  induction l with
  | nil => simp [dropTrailSlash]
  | cons c rest ih =>
    cases h : dropTrailSlash rest with
    | nil =>
      by_cases hc : c = '/'
      · simp [dropTrailSlash, h, hc]
      · simp [dropTrailSlash, h, hc]
    | cons x xs =>
      rw [h] at ih
      simp only [dropTrailSlash, h]
      simpa [List.getLast?_cons_cons] using ih

theorem dropTrailSlash_eq_self (l : List Char) (h : l.getLast? ≠ some '/') :
    dropTrailSlash l = l := by
  induction l with
  | nil => rfl
  | cons c rest ih =>
    cases rest with
    | nil =>
      have : c ≠ '/' := by simpa using h
      simp [dropTrailSlash, this]
    | cons y ys =>
      have h' : (y :: ys).getLast? ≠ some '/' := by
        simpa [List.getLast?_cons_cons] using h
      have hts := ih h'
      rw [dropTrailSlash, hts]

theorem dropTrailSlash_head (l : List Char) :
    dropTrailSlash l = [] ∨ (dropTrailSlash l).head? = l.head? := by
  cases l with
  | nil => exact Or.inl rfl
  | cons c rest =>
    cases h : dropTrailSlash rest with
    | nil =>
      by_cases hc : c = '/'
      · exact Or.inl (by simp [dropTrailSlash, h, hc])
      · exact Or.inr (by simp [dropTrailSlash, h, hc])
    | cons x xs => exact Or.inr (by simp [dropTrailSlash, h])

theorem collapseSlash_head (c : Char) (t : List Char) :
    (collapseSlash (c :: t)).head? = some c := by
  induction t generalizing c with
  | nil => simp [collapseSlash]
  | cons d rest ih =>
    by_cases h : c = '/' ∧ d = '/'
    · rw [show collapseSlash (c :: d :: rest) = collapseSlash (d :: rest) by
        simp [collapseSlash, h]]
      rw [ih d, h.2, h.1]
    · simp [collapseSlash, h]

theorem collapseSlash_getLast (l : List Char) :
    (collapseSlash l).getLast? = l.getLast? := by
  induction l with
  | nil => rfl
  | cons c rest ih =>
    cases rest with
    | nil => simp [collapseSlash]
    | cons d t =>
      by_cases h : c = '/' ∧ d = '/'
      · rw [show collapseSlash (c :: d :: t) = collapseSlash (d :: t) by
          simp [collapseSlash, h]]
        rw [ih, List.getLast?_cons_cons]
      · rw [show collapseSlash (c :: d :: t) = c :: collapseSlash (d :: t) by
          simp [collapseSlash, h]]
        have hne : collapseSlash (d :: t) ≠ [] := by
          intro hh
          have := collapseSlash_head d t
          rw [hh] at this
          simp at this
        obtain ⟨x, xs, hx⟩ := List.exists_cons_of_ne_nil hne
        rw [hx, List.getLast?_cons_cons, ← hx, ih, List.getLast?_cons_cons]

theorem collapseSlash_hasDbl (l : List Char) :
    hasDbl (collapseSlash l) = false := by
  induction l with
  | nil => rfl
  | cons c rest ih =>
    cases rest with
    | nil => rfl
    | cons d t =>
      by_cases h : c = '/' ∧ d = '/'
      · rw [show collapseSlash (c :: d :: t) = collapseSlash (d :: t) by
          simp [collapseSlash, h]]
        exact ih
      · rw [show collapseSlash (c :: d :: t) = c :: collapseSlash (d :: t) by
          simp [collapseSlash, h]]
        have hdhead := collapseSlash_head d t
        obtain ⟨x, xs, hx⟩ := List.exists_cons_of_ne_nil (l := collapseSlash (d :: t))
          (by intro hh; rw [hh] at hdhead; simp at hdhead)
        have hxd : x = d := by
          rw [hx] at hdhead
          simpa using hdhead
        rw [hx, hxd]
        rw [hx, hxd] at ih
        have hcd : (c = '/' && d = '/') = false := by
          by_cases hc : c = '/'
          · have hd : d ≠ '/' := fun hd => h ⟨hc, hd⟩
            simp [hd]
          · simp [hc]
        simp [hasDbl, hcd, ih]

theorem collapseSlash_eq_self (l : List Char) (h : hasDbl l = false) :
    collapseSlash l = l := by
  induction l with
  | nil => rfl
  | cons c rest ih =>
    cases rest with
    | nil => rfl
    | cons d t =>
      rw [hasDbl] at h
      have hor := Bool.or_eq_false_iff.mp h
      have hcd : ¬(c = '/' ∧ d = '/') := by
        intro hh
        have := hor.1
        simp [hh.1, hh.2] at this
      rw [show collapseSlash (c :: d :: t) = c :: collapseSlash (d :: t) by
        simp [collapseSlash, hcd]]
      rw [ih hor.2]

end PathUtils

namespace PathUtils

theorem normalized_fixed (l : List Char) :
    normalizePath (String.mk (collapseSlash (dropTrailSlash (dropLeadSlash l)))) =
      String.mk (collapseSlash (dropTrailSlash (dropLeadSlash l))) := by
  set r := collapseSlash (dropTrailSlash (dropLeadSlash l)) with hrdef
  by_cases h0 : String.mk r = ""
  · rw [normalizePath, if_pos h0, h0]
  · rw [normalizePath, if_neg h0]
    have hdata : (String.mk r).data = r := rfl
    rw [hdata]
    have hhead : r.head? ≠ some '/' := by
      cases hx : dropTrailSlash (dropLeadSlash l) with
      | nil =>
        rw [hrdef, hx]
        simp [collapseSlash]
      | cons c t =>
        have hrc : r.head? = some c := by
          rw [hrdef, hx]
          exact collapseSlash_head c t
        rcases dropTrailSlash_head (dropLeadSlash l) with hnil | hh
        · rw [hnil] at hx
          cases hx
        · have hlc : (dropLeadSlash l).head? = some c := by
            rw [← hh, hx]
            rfl
          have hcne : c ≠ '/' := by
            intro hcc
            apply dropLeadSlash_head l
            rw [hlc, hcc]
          rw [hrc]
          simp [hcne]
    have hlast : r.getLast? ≠ some '/' := by
      rw [hrdef, collapseSlash_getLast]
      exact dropTrailSlash_getLast (dropLeadSlash l)
    rw [dropLeadSlash_eq_self r hhead, dropTrailSlash_eq_self r hlast,
      collapseSlash_eq_self r (by rw [hrdef]; exact collapseSlash_hasDbl _)]

end PathUtils

/-- C4 (counterexample): `normalizeFilename` is not idempotent — it
strips only one leading slash per call, so on `"//a"` a first
application yields `"/a"` and a second one yields `"a"`. -/
theorem c4_counterexample :
    normalizeFilename (normalizeFilename "//a") ≠ normalizeFilename "//a" := by
  decide

/-- C4 (amended): `PathUtils.normalizePath` is idempotent on every raw
path string (`normalizeFilename`, the other normalizer the claim cites,
is not — see the counterexample). -/
theorem c4_amended (p : String) :
    PathUtils.normalizePath (PathUtils.normalizePath p) = PathUtils.normalizePath p := by
  by_cases hp : p = ""
  · rw [hp]
    rfl
  · have h1 : PathUtils.normalizePath p =
        String.mk (PathUtils.collapseSlash (PathUtils.dropTrailSlash
          (PathUtils.dropLeadSlash p.data))) := by
      rw [PathUtils.normalizePath, if_neg hp]
    rw [h1]
    exact PathUtils.normalized_fixed p.data

/-! ## Basic lemmas about the enhanced manager's state helpers -/

namespace EFSM

@[simp]
theorem emit_fileMap (s : EState) (ev pl : String) : (emit s ev pl).fileMap = s.fileMap := rfl

@[simp]
theorem emit_openTabs (s : EState) (ev pl : String) : (emit s ev pl).openTabs = s.openTabs := rfl

@[simp]
theorem emit_activeTab (s : EState) (ev pl : String) : (emit s ev pl).activeTab = s.activeTab := rfl

@[simp]
theorem setNode_fileMap (s : EState) (k : String) (n : Node) :
    (setNode s k n).fileMap = alSet s.fileMap k n := rfl

@[simp]
theorem setNode_openTabs (s : EState) (k : String) (n : Node) :
    (setNode s k n).openTabs = s.openTabs := rfl

@[simp]
theorem setNode_activeTab (s : EState) (k : String) (n : Node) :
    (setNode s k n).activeTab = s.activeTab := rfl

theorem normalizePath_ne_empty (p : String) : normalizePath p ≠ "" := by
  unfold normalizePath
  by_cases h1 : p = ""
  · simp [h1]
  · by_cases h2 : p = "/"
    · simp [h1, h2]
    · by_cases h3 : strStarts p "/"
      · simp [h1, h2, h3]
      · simp [h1, h2, h3]
        intro hcon
        apply h1
        have : ("/" ++ p).data = '/' :: p.data := rfl
        rw [hcon] at this
        cases this

theorem normalizePath_idem (p : String) :
    normalizePath (normalizePath p) = normalizePath p := by
  unfold normalizePath
  by_cases h1 : p = ""
  · simp [h1]
  · by_cases h2 : p = "/"
    · simp [h1, h2]
    · by_cases h3 : strStarts p "/"
      · simp [h1, h2, h3]
      · simp only [h1, h2, h3, if_false, if_neg]
        have hne : ("/" ++ p) ≠ "" := by
          intro hcon
          apply h1
          have : ("/" ++ p).data = '/' :: p.data := rfl
          rw [hcon] at this
          cases this
        have hne2 : ("/" ++ p) ≠ "/" := by
          intro hcon
          apply h1
          have hd : ("/" ++ p).data = '/' :: p.data := rfl
          rw [hcon] at hd
          have : p.data = [] := by
            have := hd.symm
            simpa using this
          cases p
          simp at this
          simp [this]
        have hstarts : strStarts ("/" ++ p) "/" = true := by
          have hd : ("/" ++ p).data = '/' :: p.data := rfl
          simp [strStarts, hd, listStarts]
        simp [hne, hne2, hstarts]

end EFSM

/-- C10: a `updateFileContent` call on a record whose `isLocked` flag is
set leaves the whole manager state (record, history, timestamps, event
log) unchanged; records created with `isNew = true` are locked from
birth; and `saveFile` clears the lock together with the new/dirty
flags. -/
theorem c10_locked_update_is_noop :
    (∀ (s : EFSM.EState) (p c : String) (now : Nat) (node : EFSM.Node),
      alGet s.fileMap (EFSM.normalizePath p) = some node →
      node.isLocked = true →
      EFSM.updateFileContent s p c now = s)
  ∧ (∀ (path name parentPath content : String) (now : Nat),
      (EFSM.mkFileNode path name parentPath content true now).isLocked = true ∧
      (EFSM.mkFileNode path name parentPath content true now).isNew = true)
  ∧ (∀ (s : EFSM.EState) (p : String) (now : Nat) (node : EFSM.Node),
      alGet s.fileMap (EFSM.normalizePath p) = some node →
      node.type = EFSM.NodeType.file →
      (alGet (EFSM.saveFile s p now).fileMap (EFSM.normalizePath p)).map
        (fun n => (n.isLocked, n.isNew, n.isDirty)) = some (false, false, false)) := by
  refine ⟨?_, ?_, ?_⟩
  · intro s p c now node h hlock
    unfold EFSM.updateFileContent
    simp only [h]
    by_cases ht : node.type = EFSM.NodeType.file
    · simp [ht, hlock]
    · simp [ht]
  · intro path name parentPath content now
    exact ⟨rfl, rfl⟩
  · intro s p now node h ht
    unfold EFSM.saveFile
    simp only [h]
    cases hc : node.content with
    | some c => simp [ht, hc, alGet_alSet_self]
    | none => simp [ht, hc, alGet_alSet_self]

/-- C10 witness: the concrete locked file `/g.txt` of `c10st` really is
new+locked, a user edit leaves the state untouched, and saving unlocks
it. -/
theorem c10_witness :
    EFSM.updateFileContent EFSM.c10st "/g.txt" "typed" 3 = EFSM.c10st
    ∧ ((EFSM.mkFileNode "/h.txt" "h.txt" "/" "x" true 5).isLocked = true ∧
        (EFSM.mkFileNode "/h.txt" "h.txt" "/" "x" true 5).isNew = true)
    ∧ (alGet (EFSM.saveFile EFSM.c10st "/g.txt" 4).fileMap "/g.txt").map
        (fun n => (n.isLocked, n.isNew, n.isDirty)) = some (false, false, false) :=
  ⟨c10_locked_update_is_noop.1 EFSM.c10st "/g.txt" "typed" 3 EFSM.c10node (by decide) (by decide),
   c10_locked_update_is_noop.2.1 "/h.txt" "h.txt" "/" "x" 5,
   c10_locked_update_is_noop.2.2 EFSM.c10st "/g.txt" 4 EFSM.c10node (by decide) (by decide)⟩

theorem jsSlice_last50_length (l : List String) (h : 50 < l.length) :
    (jsSlice l (-50) (Int.ofNat l.length)).length = 50 := by
  unfold jsSlice
  simp only [Int.ofNat_eq_natCast]
  have hb : ((-50 : Int) < 0) := by norm_num
  have he : ¬((l.length : Int) < 0) := by simp
  simp only [if_pos hb, if_neg he, min_self]
  have hmax : max (0 : Int) ((l.length : Int) + (-50)) = (l.length : Int) - 50 := by
    rw [max_eq_right] <;> omega
  rw [hmax]
  simp [List.length_drop, List.length_take]
  omega

theorem cappedLength (h1 : List String) (c : String) :
    (if (h1 ++ [c]).length > 50 then
      jsSlice (h1 ++ [c]) (-50) (Int.ofNat (h1 ++ [c]).length)
    else h1 ++ [c]).length ≤ 50 := by
  by_cases hc : (h1 ++ [c]).length > 50
  · rw [if_pos hc, jsSlice_last50_length _ hc]
  · rw [if_neg hc]
    omega

/-- C8: every `saveToHistory` result has at most 50 snapshots (the cap
drops oldest entries and re-points the index); `undo` is a no-op when
the cursor is at or below 0; `redo` is a no-op when the cursor is at or
past `history.length - 1`; and a successful `undo` from an in-bounds
cursor reads the in-bounds entry `history[i-1]` and moves the cursor to
`i-1`, never past the boundary. -/
theorem c8_history_bounds :
    (∀ (node : EFSM.Node) (c : String),
      ((EFSM.saveToHistory node c).history.getD []).length ≤ 50)
  ∧ (∀ (s : EFSM.EState) (p : String) (now : Nat) (node : EFSM.Node),
      alGet s.fileMap (EFSM.normalizePath p) = some node →
      node.historyIndex.getD (-1) ≤ 0 →
      EFSM.undo s p now = s)
  ∧ (∀ (s : EFSM.EState) (p : String) (now : Nat) (node : EFSM.Node),
      alGet s.fileMap (EFSM.normalizePath p) = some node →
      node.historyIndex.getD (-1) ≥ Int.ofNat (node.history.getD []).length - 1 →
      EFSM.redo s p now = s)
  ∧ (∀ (s : EFSM.EState) (p : String) (now : Nat) (node : EFSM.Node)
      (hl : List String) (i : Int),
      alGet s.fileMap (EFSM.normalizePath p) = some node →
      node.history = some hl →
      node.historyIndex = some i →
      0 < i → i < Int.ofNat hl.length →
      (alGet (EFSM.undo s p now).fileMap (EFSM.normalizePath p)).map
        (fun n => (n.content, n.historyIndex)) =
        some (hl.get? (i - 1).toNat, some (i - 1))) := by
  refine ⟨?_, ?_, ?_, ?_⟩
  · intro node c
    simp only [EFSM.saveToHistory, Option.getD_some]
    exact cappedLength _ c
  · intro s p now node h hidx
    unfold EFSM.undo
    simp only [h]
    have hcu : EFSM.canUndo s (EFSM.normalizePath p) = false := by
      simp only [EFSM.canUndo, EFSM.normalizePath_idem, h]
      have : ¬node.historyIndex.getD (-1) > 0 := by omega
      simp [this]
    simp [hcu]
  · intro s p now node h hidx
    unfold EFSM.redo
    simp only [h]
    have hcr : EFSM.canRedo s (EFSM.normalizePath p) = false := by
      simp only [EFSM.canRedo, EFSM.normalizePath_idem, h]
      have : ¬node.historyIndex.getD (-1) <
          Int.ofNat (node.history.getD []).length - 1 := by omega
      simp [this]
      intro _
      simp only [Int.ofNat_eq_natCast] at *
      omega
    simp [hcr]
  · intro s p now node hl i h hh hi h0 hlen
    unfold EFSM.undo
    simp only [h]
    have hcu : EFSM.canUndo s (EFSM.normalizePath p) = true := by
      simp only [EFSM.canUndo, EFSM.normalizePath_idem, h]
      simp [hh, hi]
      omega
    have hge : (0 : Int) ≤ i - 1 := by omega
    have hnneg : ¬(i - 1 < (0 : Int)) := by omega
    simp [hcu, hh, hi, alGet_alSet_self, jsArrGet, hge, hnneg]

/-- C8 witness: the bounds at the concrete two-snapshot file `/x` of
`c8st` (undo no-op at the root record whose cursor defaults to `-1`,
redo no-op at the end of the history, and a real in-bounds undo). -/
theorem c8_witness :
    ((EFSM.saveToHistory EFSM.c8node "h2").history.getD []).length ≤ 50
    ∧ EFSM.undo EFSM.c8st "/" 9 = EFSM.c8st
    ∧ EFSM.redo EFSM.c8st "/x" 9 = EFSM.c8st
    ∧ (alGet (EFSM.undo EFSM.c8st "/x" 9).fileMap "/x").map
        (fun n => (n.content, n.historyIndex)) = some (some "h0", some 0) :=
  ⟨c8_history_bounds.1 EFSM.c8node "h2",
   c8_history_bounds.2.1 EFSM.c8st "/" 9 (EFSM.rootNode 0) (by decide) (by decide),
   c8_history_bounds.2.2.1 EFSM.c8st "/x" 9 EFSM.c8node (by decide) (by decide),
   c8_history_bounds.2.2.2 EFSM.c8st "/x" 9 EFSM.c8node ["h0", "h1"] 1 (by decide)
     (by decide) (by decide) (by decide) (by decide)⟩

/-- C9: `deleteNode("/")` fails with the root-violation error before any
state is touched; `renameNode` fails with the invalid-name error for
names failing validation and with the name-conflict error when the
(valid) target path already exists; `createFile` fails with the
conflict error when the target exists and the invalid-name error
otherwise — in each case the operation returns the error and produces no
successor state, so the store is unchanged. -/
theorem c9_validation_errors_atomic :
    (∀ (s : EFSM.EState) (now : Nat),
      EFSM.deleteNode s "/" now = Except.error "Cannot delete root directory")
  ∧ (∀ (s : EFSM.EState) (path newName : String) (now : Nat) (node : EFSM.Node),
      alGet s.fileMap (EFSM.normalizePath path) = some node →
      EFSM.isValidFileName newName = false →
      EFSM.renameNode s path newName now = Except.error ("Invalid name: " ++ newName))
  ∧ (∀ (s : EFSM.EState) (path newName : String) (now : Nat) (node other : EFSM.Node),
      alGet s.fileMap (EFSM.normalizePath path) = some node →
      EFSM.isValidFileName newName = true →
      alGet s.fileMap (EFSM.joinPath (jsOrStr node.parent "/") newName) = some other →
      EFSM.renameNode s path newName now = Except.error ("Name already exists: " ++ newName))
  ∧ (∀ (s : EFSM.EState) (parentPath name content : String) (now : Nat),
      alGet s.fileMap (EFSM.joinPath (EFSM.normalizePath parentPath) name) = none →
      EFSM.isValidFileName name = false →
      EFSM.createFile s parentPath name content now =
        Except.error ("Invalid file name: " ++ name))
  ∧ (∀ (s : EFSM.EState) (parentPath name content : String) (now : Nat) (other : EFSM.Node),
      alGet s.fileMap (EFSM.joinPath (EFSM.normalizePath parentPath) name) = some other →
      EFSM.createFile s parentPath name content now =
        Except.error ("File already exists: " ++ name)) := by
  refine ⟨?_, ?_, ?_, ?_, ?_⟩
  · intro s now
    rfl
  · intro s path newName now node h hval
    unfold EFSM.renameNode
    simp only [h]
    simp [hval]
  · intro s path newName now node other h hval hconf
    unfold EFSM.renameNode
    simp only [h]
    simp [hval, hconf]
  · intro s parentPath name content now h hval
    unfold EFSM.createFile
    simp [h, hval]
  · intro s parentPath name content now other h
    unfold EFSM.createFile
    simp [h]

/-- C9 witness: the concrete errors on `c9st` (two plain files `/a.txt`
and `/b.txt`): root delete, rename to the empty (invalid) name, rename
of `/a.txt` onto the existing `/b.txt`, creation with an invalid name,
and creation at the occupied `/a.txt`. -/
theorem c9_witness :
    EFSM.deleteNode EFSM.c9st "/" 9 = Except.error "Cannot delete root directory"
    ∧ EFSM.renameNode EFSM.c9st "/a.txt" "" 9 = Except.error ("Invalid name: " ++ "")
    ∧ EFSM.renameNode EFSM.c9st "/a.txt" "b.txt" 9 =
        Except.error ("Name already exists: " ++ "b.txt")
    ∧ EFSM.createFile EFSM.c9st "/" "x y" "c" 9 =
        Except.error ("Invalid file name: " ++ "x y")
    ∧ EFSM.createFile EFSM.c9st "/" "a.txt" "c" 9 =
        Except.error ("File already exists: " ++ "a.txt") :=
  ⟨c9_validation_errors_atomic.1 EFSM.c9st 9,
   c9_validation_errors_atomic.2.1 EFSM.c9st "/a.txt" "" 9 EFSM.c9node (by decide) (by decide),
   c9_validation_errors_atomic.2.2.1 EFSM.c9st "/a.txt" "b.txt" 9 EFSM.c9node EFSM.c9nodeB
     (by decide) (by decide) (by decide),
   c9_validation_errors_atomic.2.2.2.1 EFSM.c9st "/" "x y" "c" 9 (by decide) (by decide),
   c9_validation_errors_atomic.2.2.2.2 EFSM.c9st "/" "a.txt" "c" 9 EFSM.c9node (by decide)⟩

/-- C1 (counterexample): the claim fails on the content-map
reconciliation path.  `/f.txt` in `c1st` is a freshly created unsaved
file (`isNew` and `isLocked` both set, content `"local"`), yet
`updateFileContentMap` with remote content `"remote"` overwrites its
content — the guard on `isNew`/`isLocked` there only prevents the
`isDirty` flag from being cleared, not the content write. -/
theorem c1_counterexample :
    (alGet EFSM.c1st.fileMap "/f.txt").map (fun n => (n.isNew, n.isLocked, n.content))
      = some (true, true, some "local")
    ∧ (alGet (EFSM.updateFileContentMap EFSM.c1st [("/f.txt", "remote")] 2).fileMap
        "/f.txt").map (fun n => n.content) = some (some "remote") := by
  decide

/-- C1 (amended): only the structure-merge reconciliation path
(`processExternalNode`, hence `mergeExternalStructure`) rejects remote
updates to records with `isNew` or `isLocked` set, leaving the state
unchanged and raising no error; the content-map path
(`updateFileContentMap`) replaces even a new/locked record's content and
preserves only its `isDirty` flag. -/
theorem c1_amended :
    (∀ (s : EFSM.EState) (ext : EFSM.ExtNode) (parentPath : String) (now : Nat)
      (e : EFSM.Node),
      alGet s.fileMap (EFSM.extFullPath parentPath ext.name) = some e →
      (e.isNew || e.isLocked) = true →
      EFSM.processExternalNode s ext parentPath now = s)
  ∧ (∀ (s : EFSM.EState) (p c : String) (now : Nat) (node : EFSM.Node),
      alGet s.fileMap (EFSM.normalizePath p) = some node →
      node.type = EFSM.NodeType.file →
      (node.isNew || node.isLocked) = true →
      node.content ≠ some c →
      (alGet (EFSM.updateFileContentMap s [(p, c)] now).fileMap (EFSM.normalizePath p)).map
        (fun n => (n.content, n.isDirty)) = some (some c, node.isDirty)) := by
  constructor
  · intro s ext parentPath now e h hflag
    cases ext with
    | mk name ty content sizeOpt children =>
      unfold EFSM.processExternalNode
      simp only [EFSM.ExtNode.name] at h
      simp [h, hflag]
  · intro s p c now node h ht hflag hne
    have hnl : (!node.isNew && !node.isLocked) = false := by
      revert hflag
      cases node.isNew <;> cases node.isLocked <;> simp
    unfold EFSM.updateFileContentMap
    simp only [List.foldl_cons, List.foldl_nil]
    simp [h, ht, hne, hnl, alGet_alSet_self, EFSM.saveToHistory]

/-- C1 witness: on the concrete locked file of `c1st`, the structure
merge is a no-op while the content-map update rewrites the content and
keeps the dirty flag. -/
theorem c1_amended_witness :
    EFSM.processExternalNode EFSM.c1st
        (EFSM.ExtNode.mk "f.txt" EFSM.NodeType.file (some "remote") none none) "/" 2
      = EFSM.c1st
    ∧ (alGet (EFSM.updateFileContentMap EFSM.c1st [("/f.txt", "remote")] 2).fileMap
        "/f.txt").map (fun n => (n.content, n.isDirty))
      = some (some "remote", EFSM.c1node.isDirty) :=
  ⟨c1_amended.1 EFSM.c1st _ "/" 2 EFSM.c1node (by decide) (by decide),
   c1_amended.2 EFSM.c1st "/f.txt" "remote" 2 EFSM.c1node (by decide) (by decide)
     (by decide) (by decide)⟩

/-- C2: for an existing record that is neither new nor locked, a
reconciliation with differing remote content overwrites the local
content and clears `isDirty`, on both the content-map path and the
structure-merge path. -/
theorem c2_unlocked_reconciliation_wins :
    (∀ (s : EFSM.EState) (p c : String) (now : Nat) (node : EFSM.Node),
      alGet s.fileMap (EFSM.normalizePath p) = some node →
      node.type = EFSM.NodeType.file →
      node.isNew = false → node.isLocked = false →
      node.content ≠ some c →
      (alGet (EFSM.updateFileContentMap s [(p, c)] now).fileMap (EFSM.normalizePath p)).map
        (fun n => (n.content, n.isDirty)) = some (some c, false))
  ∧ (∀ (s : EFSM.EState) (parentPath : String) (now : Nat) (name c : String)
      (sizeOpt : Option Nat) (children : Option (List EFSM.ExtNode)) (e : EFSM.Node),
      alGet s.fileMap (EFSM.extFullPath parentPath name) = some e →
      e.isNew = false → e.isLocked = false →
      e.content ≠ some c →
      (alGet (EFSM.processExternalNode s
          (EFSM.ExtNode.mk name EFSM.NodeType.file (some c) sizeOpt children)
          parentPath now).fileMap (EFSM.extFullPath parentPath name)).map
        (fun n => (n.content, n.isDirty)) = some (some c, false)) := by
  constructor
  · intro s p c now node h ht hnew hlock hne
    have hnl : (!node.isNew && !node.isLocked) = true := by
      simp [hnew, hlock]
    unfold EFSM.updateFileContentMap
    simp only [List.foldl_cons, List.foldl_nil]
    simp [h, ht, hne, hnl, alGet_alSet_self, EFSM.saveToHistory]
  · intro s parentPath now name c sizeOpt children e h hnew hlock hne
    unfold EFSM.processExternalNode
    simp [h, hnew, hlock, hne, alGet_alSet_self]

/-- C2 witness: the open (not new, not locked) file `/f.txt` of `c2st`
holds `"old"` and is dirty; reconciling with `"new"` through either path
yields content `"new"` with `isDirty = false`. -/
theorem c2_witness :
    (alGet (EFSM.updateFileContentMap EFSM.c2st [("/f.txt", "new")] 3).fileMap
        "/f.txt").map (fun n => (n.content, n.isDirty)) = some (some "new", false)
    ∧ (alGet (EFSM.processExternalNode EFSM.c2st
        (EFSM.ExtNode.mk "f.txt" EFSM.NodeType.file (some "new") none none) "/" 3).fileMap
        "/f.txt").map (fun n => (n.content, n.isDirty)) = some (some "new", false) :=
  ⟨c2_unlocked_reconciliation_wins.1 EFSM.c2st "/f.txt" "new" 3 EFSM.c2node (by decide)
     (by decide) (by decide) (by decide) (by decide),
   c2_unlocked_reconciliation_wins.2 EFSM.c2st "/" 3 "f.txt" "new" none none EFSM.c2node
     (by decide) (by decide) (by decide) (by decide)⟩

theorem alGet_mem {α : Type} (m : List (String × α)) (k : String) (v : α)
    (h : alGet m k = some v) : (k, v) ∈ m := by
  induction m with
  | nil => simp [alGet] at h
  | cons kv rest ih =>
    obtain ⟨k', v'⟩ := kv
    by_cases hk : k' = k
    · subst hk
      simp [alGet] at h
      subst h
      exact List.mem_cons_self _ _
    · simp [alGet, hk] at h
      exact List.mem_cons_of_mem _ (ih h)

theorem dirtyOk_of_all (s : FSM1.FState)
    (h : ∀ kv ∈ s.files, kv.2.isDirty = decide (kv.2.content ≠ kv.2.originalContent)) :
    FSM1.DirtyOk s := by
  intro k f hk
  exact h (k, f) (alGet_mem s.files k f hk)

/-- C3 (counterexample): the dirty invariant fails after `open` of an
existing record.  In `c3st` the file `a.txt` was opened with `"A"` and
then opened again with `"B"`: the second open overwrote `content`
without recomputing `isDirty`, leaving `isDirty = false` while
`content ≠ originalContent`. -/
theorem c3_counterexample :
    (alGet FSM1.c3st.files "a.txt").map (fun f => f.isDirty) = some false
    ∧ (alGet FSM1.c3st.files "a.txt").map
        (fun f => decide (f.content ≠ f.originalContent)) = some true := by
  decide

/-- C3 (amended): in the basic manager the dirty invariant
`isDirty = (content != originalContent)` is preserved by
`updateFileContent`, `saveFile` and `revertFile`; it is not maintained
by `openFile` on an existing record (see the counterexample), nor by
the enhanced manager's reconciliation paths. -/
theorem c3_amended (s : FSM1.FState) (raw c : String) (now : Nat)
    (hs : FSM1.DirtyOk s) :
    FSM1.DirtyOk (FSM1.updateFileContent s raw c)
    ∧ FSM1.DirtyOk (FSM1.saveFile s raw now).1
    ∧ FSM1.DirtyOk (FSM1.revertFile s raw).1 := by
  refine ⟨?_, ?_, ?_⟩
  · intro k f hk
    unfold FSM1.updateFileContent at hk
    cases hfile : alGet s.files (normalizeFilename raw) with
    | none =>
      simp only [hfile] at hk
      exact hs k f hk
    | some file =>
      simp only [hfile] at hk
      by_cases hkf : k = normalizeFilename raw
      · subst hkf
        rw [alGet_alSet_self] at hk
        cases hk
        simp
      · rw [alGet_alSet_ne _ _ _ _ hkf] at hk
        exact hs k f hk
  · intro k f hk
    unfold FSM1.saveFile at hk
    cases hfile : alGet s.files (normalizeFilename raw) with
    | none =>
      simp only [hfile] at hk
      exact hs k f hk
    | some file =>
      simp only [hfile] at hk
      by_cases hkf : k = normalizeFilename raw
      · subst hkf
        rw [alGet_alSet_self] at hk
        cases hk
        simp
      · rw [alGet_alSet_ne _ _ _ _ hkf] at hk
        exact hs k f hk
  · intro k f hk
    unfold FSM1.revertFile at hk
    cases hfile : alGet s.files (normalizeFilename raw) with
    | none =>
      simp only [hfile] at hk
      exact hs k f hk
    | some file =>
      simp only [hfile] at hk
      by_cases hed : file.isEditable
      · simp only [hed, if_true] at hk
        by_cases hkf : k = normalizeFilename raw
        · subst hkf
          rw [alGet_alSet_self] at hk
          cases hk
          simp
        · rw [alGet_alSet_ne _ _ _ _ hkf] at hk
          exact hs k f hk
      · simp only [hed, if_false] at hk
        exact hs k f hk

/-- C3 witness: the invariant holds after an edit of the concrete clean
file `w.txt` of `c3wst`. -/
theorem c3_amended_witness :
    FSM1.DirtyOk (FSM1.updateFileContent FSM1.c3wst "w.txt" "W2") :=
  (c3_amended FSM1.c3wst "w.txt" "W2" 9 (dirtyOk_of_all FSM1.c3wst (by decide))).1

theorem alGet_map_content_alSet_flag (m : List (String × EFSM.Node)) (k : String)
    (nd v : EFSM.Node) (hm : alGet m k = some nd) (hv : v.content = nd.content)
    (p : String) :
    (alGet (alSet m k v) p).map (fun x => x.content) =
      (alGet m p).map (fun x => x.content) := by
  by_cases hp : p = k
  · subst hp
    rw [alGet_alSet_self, hm]
    simp [hv]
  · rw [alGet_alSet_ne _ _ _ _ hp]

theorem contentAt_activateTabCore (s : EFSM.EState) (n p : String) :
    (alGet (EFSM.activateTabCore s n).fileMap p).map (fun nd => nd.content) =
      (alGet s.fileMap p).map (fun nd => nd.content) := by
  unfold EFSM.activateTabCore
  cases hat : s.activeTab with
  | none =>
    cases hn : alGet s.fileMap n with
    | none => simp [hn]
    | some node =>
      simp only [hn, EFSM.emit_fileMap, EFSM.setNode_fileMap]
      exact alGet_map_content_alSet_flag s.fileMap n node { node with isActive := true }
        hn rfl p
  | some prev =>
    cases hprev : alGet s.fileMap prev with
    | none =>
      simp only [hprev]
      cases hn : alGet s.fileMap n with
      | none => simp [hn]
      | some node =>
        simp only [hn, EFSM.emit_fileMap, EFSM.setNode_fileMap]
        exact alGet_map_content_alSet_flag s.fileMap n node { node with isActive := true }
          hn rfl p
    | some prevNode =>
      simp only [hprev, EFSM.setNode_fileMap]
      have h1 : ∀ q, (alGet (alSet s.fileMap prev { prevNode with isActive := false }) q).map
          (fun x => x.content) = (alGet s.fileMap q).map (fun x => x.content) :=
        fun q => alGet_map_content_alSet_flag s.fileMap prev prevNode
          { prevNode with isActive := false } hprev rfl q
      cases hn : alGet (alSet s.fileMap prev { prevNode with isActive := false }) n with
      | none => simp [hn, h1]
      | some node2 =>
        simp only [hn, EFSM.emit_fileMap, EFSM.setNode_fileMap]
        rw [alGet_map_content_alSet_flag _ n node2 { node2 with isActive := true } hn rfl p]
        exact h1 p

/-- C6 (counterexample): a direct `openFile` on an existing record in
the basic manager does overwrite its content — `b.txt` holds `"A"`, and
opening it again with `"B"` replaces the content unconditionally (there
is no lock check and no caller distinction in `openFile`). -/
theorem c6_counterexample :
    (alGet FSM1.c6pre.files "b.txt").map (fun f => f.content) = some "A"
    ∧ (alGet (FSM1.openFile FSM1.c6pre "b.txt" "B" none none 2).files "b.txt").map
        (fun f => f.content) = some "B" := by
  decide

/-- C6 (amended): in the enhanced manager, `openFile` never changes an
existing record's content (it takes no content argument); in the basic
manager, `openFile(p, newContent)` unconditionally replaces an existing
record's content with `newContent` — protection of local content from
remote updates is enforced only in the enhanced manager's
reconciliation entry points, not in `open`. -/
theorem c6_amended :
    (∀ (s : EFSM.EState) (p : String) (now : Nat) (node : EFSM.Node),
      alGet s.fileMap (EFSM.normalizePath p) = some node →
      (alGet (EFSM.openFile s p now).fileMap (EFSM.normalizePath p)).map
        (fun n => n.content) = some node.content)
  ∧ (∀ (s : FSM1.FState) (raw c : String) (ft : Option String) (now : Nat)
      (f : FSM1.FileState),
      alGet s.files (normalizeFilename raw) = some f →
      (alGet (FSM1.openFile s raw c ft none now).files (normalizeFilename raw)).map
        (fun g => g.content) = some c) := by
  constructor
  · intro s p now node h
    unfold EFSM.openFile
    simp only [h, EFSM.emit_fileMap]
    rw [contentAt_activateTabCore]
    split
    · simp only [EFSM.setNode_fileMap]
      rw [alGet_map_content_alSet_flag s.fileMap _ node { node with isOpen := true } h rfl, h]
      simp
    · simp only [EFSM.setNode_fileMap]
      rw [alGet_map_content_alSet_flag s.fileMap _ node { node with isOpen := true } h rfl, h]
      simp
  · intro s raw c ft now f h
    unfold FSM1.openFile
    simp only [h]
    simp [alGet_alSet_self]

/-- C6 witness: opening the concrete existing file `/e.txt` of `c6est`
in the enhanced manager keeps its content, while the basic manager's
open with `"B2"` replaces the content of `b.txt`. -/
theorem c6_amended_witness :
    (alGet (EFSM.openFile EFSM.c6est "/e.txt" 4).fileMap "/e.txt").map
        (fun n => n.content) = some EFSM.c6enode.content
    ∧ (alGet (FSM1.openFile FSM1.c6pre "b.txt" "B2" none none 3).files "b.txt").map
        (fun g => g.content) = some "B2" :=
  ⟨c6_amended.1 EFSM.c6est "/e.txt" 4 EFSM.c6enode (by decide),
   c6_amended.2 FSM1.c6pre "b.txt" "B2" none 3 FSM1.c6file (by decide)⟩

theorem activateTabCore_activeTab (s : EFSM.EState) (t : String)
    (h : (alGet s.fileMap t).isSome) :
    (EFSM.activateTabCore s t).activeTab = some t := by
  unfold EFSM.activateTabCore
  cases hat : s.activeTab with
  | none =>
    cases hn : alGet s.fileMap t with
    | none =>
      rw [hn] at h
      simp at h
    | some node => simp [hn]
  | some prev =>
    cases hprev : alGet s.fileMap prev with
    | none =>
      simp only [hprev]
      cases hn : alGet s.fileMap t with
      | none =>
        rw [hn] at h
        simp at h
      | some node => simp [hn]
    | some prevNode =>
      simp only [hprev, EFSM.setNode_fileMap]
      by_cases htp : t = prev
      · subst htp
        rw [alGet_alSet_self]
        simp [EFSM.emit]
      · rw [alGet_alSet_ne _ _ _ _ htp]
        rcases Option.isSome_iff_exists.mp h with ⟨node, hnode⟩
        simp [hnode]

/-- C7: closing the currently active tab activates the remaining tab at
`min(closedIndex, newLength - 1)` (in both managers), and clears the
active tab when the list becomes empty. -/
theorem c7_close_active_selects_adjacent :
    (∀ (s : EFSM.EState) (p : String) (now : Nat) (idx : Nat) (target : String),
      s.openTabs.findIdx? (fun t => t == EFSM.normalizePath p) = some idx →
      s.activeTab = some (EFSM.normalizePath p) →
      (s.openTabs.eraseIdx idx).get?
        (min idx ((s.openTabs.eraseIdx idx).length - 1)) = some target →
      EFSM.normalizePath target = target →
      target ≠ EFSM.normalizePath p →
      (alGet s.fileMap target).isSome = true →
      (EFSM.closeFile s p now).activeTab = some target)
  ∧ (∀ (s : EFSM.EState) (p : String) (now : Nat) (idx : Nat),
      s.openTabs.findIdx? (fun t => t == EFSM.normalizePath p) = some idx →
      s.activeTab = some (EFSM.normalizePath p) →
      s.openTabs.eraseIdx idx = [] →
      (EFSM.closeFile s p now).activeTab = none)
  ∧ (∀ (s : FSM1.FState) (raw : String) (idx : Nat),
      s.openTabs.findIdx? (fun t => t == normalizeFilename raw) = some idx →
      s.activeTab = some (normalizeFilename raw) →
      (FSM1.closeFile s raw).1.activeTab =
        (if 0 < (s.openTabs.eraseIdx idx).length then
          (s.openTabs.eraseIdx idx).get?
            (min idx ((s.openTabs.eraseIdx idx).length - 1))
        else none)) := by
  refine ⟨?_, ?_, ?_⟩
  · intro s p now idx target h2 h1 h3 h4 h5 h6
    have hpos : 0 < (s.openTabs.eraseIdx idx).length := by
      rcases List.get?_eq_some.mp h3 with ⟨hlt, _⟩
      omega
    have hmem : target ∈ s.openTabs.eraseIdx idx := List.get?_mem h3
    have hact : ∀ (s2 : EFSM.EState),
        s2.openTabs = s.openTabs.eraseIdx idx →
        (alGet s2.fileMap target).isSome = true →
        (EFSM.activateTab s2 target now).activeTab = some target := by
      intro s2 htabs hsome
      unfold EFSM.activateTab
      rw [h4]
      have : target ∈ s2.openTabs := htabs ▸ hmem
      simp only [this, if_pos]
      exact activateTabCore_activeTab s2 target hsome
    unfold EFSM.closeFile
    simp only [h2]
    cases hmap : alGet s.fileMap (EFSM.normalizePath p) with
    | none =>
      simp only [hmap, EFSM.emit_activeTab, h1, EFSM.setNode_openTabs, if_true]
      rw [if_pos hpos]
      simp only [h3]
      exact hact _ rfl h6
    | some node =>
      simp only [hmap, EFSM.emit_activeTab, EFSM.setNode_activeTab, EFSM.setNode_openTabs,
        h1, if_true]
      rw [if_pos hpos]
      simp only [h3]
      refine hact _ rfl ?_
      simp only [EFSM.setNode_fileMap]
      rw [alGet_alSet_ne _ _ _ _ h5]
      exact h6
  · intro s p now idx h2 h1 h3
    unfold EFSM.closeFile
    simp only [h2]
    cases hmap : alGet s.fileMap (EFSM.normalizePath p) with
    | none =>
      simp only [hmap, EFSM.emit_activeTab, h1, EFSM.setNode_openTabs, h3, if_true]
      simp
    | some node =>
      simp only [hmap, EFSM.emit_activeTab, EFSM.setNode_activeTab,
        EFSM.setNode_openTabs, h1, h3, if_true]
      simp
  · intro s raw idx h2 h1
    unfold FSM1.closeFile
    simp only [h2, h1, if_true]
    by_cases hl : 0 < (s.openTabs.eraseIdx idx).length
    · rw [if_pos hl, if_pos hl]
    · rw [if_neg hl, if_neg hl]

/-- C7 witness: with open tabs `[a, b, c]` and `b` active, closing `b`
activates `c` in both managers; closing the last remaining tab clears
the active tab. -/
theorem c7_witness :
    (EFSM.closeFile EFSM.c7st "/b" 5).activeTab = some "/c"
    ∧ (FSM1.closeFile FSM1.c7fst "b").1.activeTab = some "c"
    ∧ (EFSM.closeFile (EFSM.closeFile (EFSM.closeFile EFSM.c7st "/b" 5) "/a" 6)
        "/c" 7).activeTab = none :=
  ⟨c7_close_active_selects_adjacent.1 EFSM.c7st "/b" 5 1 "/c" (by decide) (by decide)
     (by decide) (by decide) (by decide) (by decide),
   c7_close_active_selects_adjacent.2.2 FSM1.c7fst "b" 1 (by decide) (by decide),
   c7_close_active_selects_adjacent.2.1
     (EFSM.closeFile (EFSM.closeFile EFSM.c7st "/b" 5) "/a" 6) "/c" 7 0
     (by decide) (by decide) (by decide)⟩

/-! ## Lemmas for the single-active-tab invariant (claim C5) -/

theorem mem_of_mem_eraseIdx {α : Type} (l : List α) (i : Nat) (q : α)
    (h : q ∈ l.eraseIdx i) : q ∈ l := by
  induction l generalizing i with
  | nil => simp [List.eraseIdx] at h
  | cons a rest ih =>
    cases i with
    | zero => exact List.mem_cons_of_mem a h
    | succ j =>
      rcases List.mem_cons.mp h with h1 | h1
      · exact h1 ▸ List.mem_cons_self _ _
      · exact List.mem_cons_of_mem a (ih j h1)

theorem mem_eraseIdx_of_ne {α : Type} (q x : α) (hne : q ≠ x) :
    ∀ (l : List α) (i : Nat), q ∈ l → l.get? i = some x → q ∈ l.eraseIdx i := by
  intro l
  induction l with
  | nil =>
    intro i hq _
    cases hq
  | cons a rest ih =>
    intro i hq hx
    cases i with
    | zero =>
      simp [List.get?] at hx
      subst hx
      rcases List.mem_cons.mp hq with h1 | h1
      · exact absurd h1 hne
      · simpa [List.eraseIdx] using h1
    | succ j =>
      simp only [List.get?] at hx
      rcases List.mem_cons.mp hq with h1 | h1
      · subst h1
        simp [List.eraseIdx]
      · simp only [List.eraseIdx]
        exact List.mem_cons_of_mem a (ih j h1 hx)

theorem findIdx?_start_get {α : Type} (l : List α) (p : α → Bool) :
    ∀ (i j : Nat), List.findIdx? p l i = some j →
      i ≤ j ∧ ∃ x, l.get? (j - i) = some x ∧ p x = true := by
  induction l with
  | nil =>
    intro i j h
    simp [List.findIdx?] at h
  | cons a rest ih =>
    intro i j h
    rw [List.findIdx?_cons] at h
    by_cases hp : p a = true
    · rw [if_pos hp] at h
      injection h with h
      subst h
      exact ⟨le_refl _, a, by simp [List.get?], hp⟩
    · rw [if_neg hp] at h
      obtain ⟨hle, x, hx, hpx⟩ := ih (i + 1) j h
      refine ⟨by omega, x, ?_, hpx⟩
      have hji : j - i = (j - (i + 1)) + 1 := by omega
      rw [hji]
      simpa [List.get?] using hx

theorem findIdx?_get {α : Type} (l : List α) (p : α → Bool) (j : Nat)
    (h : l.findIdx? p = some j) : ∃ x, l.get? j = some x ∧ p x = true := by
  obtain ⟨_, x, hx, hpx⟩ := findIdx?_start_get l p 0 j h
  exact ⟨x, by simpa using hx, hpx⟩

namespace EFSM

theorem inv_init (tid : String) (now : Nat) : Inv (initState tid now) := by
  constructor
  · intro p node h hact
    simp only [initState, alGet] at h
    split at h
    · cases h
      cases hact
    · cases h
  · intro t ht
    simp [initState] at ht

theorem inv_emit (s : EState) (e pl : String) (h : Inv s) : Inv (emit s e pl) := by
  obtain ⟨hAct, hTabs⟩ := h
  constructor
  · intro q nd hq hact
    simp only [emit_fileMap] at hq
    have h2 := hAct q nd hq hact
    simpa using h2
  · intro t ht
    simp only [emit_openTabs] at ht
    exact hTabs t ht

theorem inv_setNode_inactive (s : EState) (k : String) (v : Node)
    (hv : v.isActive = false) (hInv : Inv s) : Inv (setNode s k v) := by
  obtain ⟨hAct, hTabs⟩ := hInv
  constructor
  · intro q nd hq hact
    simp only [setNode_fileMap] at hq
    by_cases hqk : q = k
    · subst hqk
      rw [alGet_alSet_self] at hq
      cases hq
      rw [hv] at hact
      cases hact
    · rw [alGet_alSet_ne _ _ _ _ hqk] at hq
      simpa using hAct q nd hq hact
  · intro t ht
    exact hTabs t (by simpa using ht)

theorem inv_setNode_keep (s : EState) (k : String) (node v : Node)
    (hfound : alGet s.fileMap k = some node) (hsame : v.isActive = node.isActive)
    (hInv : Inv s) : Inv (setNode s k v) := by
  obtain ⟨hAct, hTabs⟩ := hInv
  constructor
  · intro q nd hq hact
    simp only [setNode_fileMap] at hq
    by_cases hqk : q = k
    · subst hqk
      rw [alGet_alSet_self] at hq
      cases hq
      rw [hsame] at hact
      simpa using hAct q node hfound hact
    · rw [alGet_alSet_ne _ _ _ _ hqk] at hq
      simpa using hAct q nd hq hact
  · intro t ht
    exact hTabs t (by simpa using ht)

theorem inv_pushTab (s : EState) (n : String) (hn : normalizePath n = n)
    (hInv : Inv s) : Inv { s with openTabs := s.openTabs ++ [n] } := by
  obtain ⟨hAct, hTabs⟩ := hInv
  constructor
  · intro q nd hq hact
    have h2 := hAct q nd hq hact
    exact ⟨h2.1, List.mem_append_left _ h2.2⟩
  · intro t ht
    rcases List.mem_append.mp ht with h1 | h1
    · exact hTabs t h1
    · rw [List.mem_singleton.mp h1]
      exact hn

theorem inv_eraseTab (s : EState) (idx : Nat) (n : String)
    (hx : s.openTabs.get? idx = some n)
    (hno : ∀ nd, alGet s.fileMap n = some nd → nd.isActive = false)
    (hInv : Inv s) : Inv { s with openTabs := s.openTabs.eraseIdx idx } := by
  obtain ⟨hAct, hTabs⟩ := hInv
  constructor
  · intro q nd hq hact
    have h2 := hAct q nd hq hact
    refine ⟨h2.1, ?_⟩
    have hqn : q ≠ n := by
      intro he
      subst he
      rw [hno nd hq] at hact
      cases hact
    exact mem_eraseIdx_of_ne q n hqn s.openTabs idx h2.2 hx
  · intro t ht
    exact hTabs t (mem_of_mem_eraseIdx _ _ _ ht)

end EFSM

namespace EFSM

theorem inv_activateTabCore (s : EState) (n : String) (hInv : Inv s)
    (hmem : n ∈ s.openTabs) : Inv (activateTabCore s n) := by
  obtain ⟨hAct, hTabs⟩ := hInv
  unfold activateTabCore
  cases hat : s.activeTab with
  | none =>
    dsimp only
    have hNo : ∀ q nd, alGet s.fileMap q = some nd → ¬nd.isActive = true := by
      intro q nd hq hc
      have h2 := hAct q nd hq hc
      rw [hat] at h2
      cases h2.1
    cases hn : alGet s.fileMap n with
    | none => exact ⟨hAct, hTabs⟩
    | some node =>
      constructor
      · intro q nd hq hqact
        simp only [emit_fileMap, setNode_fileMap] at hq
        by_cases hqn : q = n
        · subst hqn
          exact ⟨rfl, hmem⟩
        · rw [alGet_alSet_ne _ _ _ _ hqn] at hq
          exact absurd hqact (hNo q nd hq)
      · intro t ht
        simp only [emit_openTabs, setNode_openTabs] at ht
        exact hTabs t ht
  | some prev =>
    dsimp only
    cases hprev : alGet s.fileMap prev with
    | none =>
      dsimp only
      have hNo : ∀ q nd, alGet s.fileMap q = some nd → ¬nd.isActive = true := by
        intro q nd hq hc
        have h2 := hAct q nd hq hc
        rw [hat] at h2
        have hpq : prev = q := by injection h2.1
        subst hpq
        rw [hprev] at hq
        cases hq
      cases hn : alGet s.fileMap n with
      | none => exact ⟨hAct, hTabs⟩
      | some node =>
        constructor
        · intro q nd hq hqact
          simp only [emit_fileMap, setNode_fileMap] at hq
          by_cases hqn : q = n
          · subst hqn
            exact ⟨rfl, hmem⟩
          · rw [alGet_alSet_ne _ _ _ _ hqn] at hq
            exact absurd hqact (hNo q nd hq)
        · intro t ht
          simp only [emit_openTabs, setNode_openTabs] at ht
          exact hTabs t ht
    | some prevNode =>
      dsimp only
      simp only [setNode_fileMap, setNode_openTabs]
      have hNo : ∀ q nd,
          alGet (alSet s.fileMap prev { prevNode with isActive := false }) q = some nd →
          ¬nd.isActive = true := by
        intro q nd hq hc
        by_cases hqp : q = prev
        · subst hqp
          rw [alGet_alSet_self] at hq
          cases hq
          cases hc
        · rw [alGet_alSet_ne _ _ _ _ hqp] at hq
          have h2 := hAct q nd hq hc
          rw [hat] at h2
          have hpq : prev = q := by injection h2.1
          exact hqp hpq.symm
      cases hn : alGet (alSet s.fileMap prev { prevNode with isActive := false }) n with
      | none =>
        constructor
        · intro q nd hq hqact
          simp only [setNode_fileMap] at hq
          exact absurd hqact (hNo q nd hq)
        · intro t ht
          simp only [setNode_openTabs] at ht
          exact hTabs t ht
      | some node2 =>
        constructor
        · intro q nd hq hqact
          simp only [emit_fileMap, setNode_fileMap] at hq
          by_cases hqn : q = n
          · subst hqn
            exact ⟨rfl, hmem⟩
          · rw [alGet_alSet_ne _ _ _ _ hqn] at hq
            exact absurd hqact (hNo q nd hq)
        · intro t ht
          simp only [emit_openTabs, setNode_openTabs] at ht
          exact hTabs t ht

end EFSM

namespace EFSM

theorem inv_openFile (s : EState) (p : String) (now : Nat) (hInv : Inv s) :
    Inv (openFile s p now) := by
  obtain ⟨hAct, hTabs⟩ := hInv
  unfold openFile
  dsimp only
  cases hfound : alGet s.fileMap (normalizePath p) with
  | some node =>
    dsimp only
    have hInv2 : Inv (setNode s (normalizePath p) { node with isOpen := true }) :=
      inv_setNode_keep s _ node _ hfound rfl ⟨hAct, hTabs⟩
    split
    · next htab => exact inv_emit _ _ _ (inv_activateTabCore _ _ hInv2 htab)
    · next htab =>
      refine inv_emit _ _ _ (inv_activateTabCore _ _ ?_ ?_)
      · exact inv_pushTab _ _ (normalizePath_idem p) hInv2
      · simp
  | none =>
    dsimp only
    have hInv1 : Inv (setNode s (normalizePath (normalizePath p))
        (mkFileNode (normalizePath p) (getFileName (normalizePath p))
          (getParentPath (normalizePath p)) "" false now)) :=
      inv_setNode_inactive _ _ _ rfl ⟨hAct, hTabs⟩
    have hInv2 : Inv (setNode
        (setNode s (normalizePath (normalizePath p))
          (mkFileNode (normalizePath p) (getFileName (normalizePath p))
            (getParentPath (normalizePath p)) "" false now))
        (normalizePath p)
        ({ mkFileNode (normalizePath p) (getFileName (normalizePath p))
            (getParentPath (normalizePath p)) "" false now with isOpen := true })) :=
      inv_setNode_inactive _ _ _ rfl hInv1
    split
    · next htab => exact inv_emit _ _ _ (inv_activateTabCore _ _ hInv2 htab)
    · next htab =>
      refine inv_emit _ _ _ (inv_activateTabCore _ _ ?_ ?_)
      · exact inv_pushTab _ _ (normalizePath_idem p) hInv2
      · simp

theorem inv_activateTab (s : EState) (p : String) (now : Nat) (hInv : Inv s) :
    Inv (activateTab s p now) := by
  unfold activateTab
  dsimp only
  by_cases hmem : normalizePath p ∈ s.openTabs
  · rw [if_pos hmem]
    exact inv_activateTabCore _ _ hInv hmem
  · rw [if_neg hmem]
    exact inv_openFile _ _ _ hInv

theorem inv_closeFile (s : EState) (p : String) (now : Nat) (hInv : Inv s) :
    Inv (closeFile s p now) := by
  obtain ⟨hAct, hTabs⟩ := hInv
  unfold closeFile
  dsimp only
  cases hidx : s.openTabs.findIdx? (fun t => t == normalizePath p) with
  | none => exact ⟨hAct, hTabs⟩
  | some idx =>
    dsimp only
    obtain ⟨x, hx, hpx⟩ := findIdx?_get s.openTabs _ idx hidx
    have hxn : x = normalizePath p := by simpa using hpx
    subst hxn
    cases hmap : alGet s.fileMap (normalizePath p) with
    | none =>
      dsimp only
      have hInv2 : Inv { s with openTabs := s.openTabs.eraseIdx idx } := by
        refine inv_eraseTab s idx _ hx ?_ ⟨hAct, hTabs⟩
        intro nd hnd
        rw [hmap] at hnd
        cases hnd
      split
      · split
        · split
          · exact inv_emit _ _ _ (inv_activateTab _ _ _ hInv2)
          · exact inv_emit _ _ _ hInv2
        · next hlen =>
          refine inv_emit _ _ _ ⟨?_, ?_⟩
          · intro q nd hq hqact
            exfalso
            have h2 := hInv2.1 q nd hq hqact
            have hempty : (s.openTabs.eraseIdx idx).length = 0 := by omega
            rw [List.length_eq_zero] at hempty
            have h3 := h2.2
            rw [hempty] at h3
            cases h3
          · intro t ht
            exact hInv2.2 t ht
      · exact inv_emit _ _ _ hInv2
    | some node =>
      dsimp only
      have hInv2 : Inv { (setNode s (normalizePath p)
          { node with isOpen := false, isActive := false }) with
            openTabs := s.openTabs.eraseIdx idx } := by
        refine inv_eraseTab _ idx _ hx ?_
          (inv_setNode_inactive _ _ _ rfl ⟨hAct, hTabs⟩)
        intro nd hnd
        rw [setNode_fileMap, alGet_alSet_self] at hnd
        cases hnd
        rfl
      split
      · split
        · split
          · exact inv_emit _ _ _ (inv_activateTab _ _ _ hInv2)
          · exact inv_emit _ _ _ hInv2
        · next hlen =>
          simp only [setNode_openTabs] at hlen
          refine inv_emit _ _ _ ⟨?_, ?_⟩
          · intro q nd hq hqact
            exfalso
            have h2 := hInv2.1 q nd hq hqact
            have hempty : (s.openTabs.eraseIdx idx).length = 0 := by omega
            rw [List.length_eq_zero] at hempty
            have h3 := h2.2
            rw [hempty] at h3
            cases h3
          · intro t ht
            exact hInv2.2 t ht
      · exact inv_emit _ _ _ hInv2

theorem inv_applyOp (s : EState) (op : TabOp) (hInv : Inv s) : Inv (applyOp s op) := by
  cases op with
  | openOp p t => exact inv_openFile s p t hInv
  | activateOp p t => exact inv_activateTab s p t hInv
  | closeOp p t => exact inv_closeFile s p t hInv

theorem inv_runOps (ops : List TabOp) : ∀ (s : EState), Inv s → Inv (runOps s ops) := by
  induction ops with
  | nil =>
    intro s h
    exact h
  | cons op rest ih =>
    intro s h
    exact ih _ (inv_applyOp s op h)

end EFSM

/-- C5: starting from a fresh manager, after any sequence of
`openFile` / `activateTab` / `closeFile` calls at most one record has
`isActive = true` (any two active records coincide), and every active
record's path is a member of `openTabs`. -/
theorem c5_single_active_tab (ops : List EFSM.TabOp) (tid : String) (n0 : Nat) :
    (∀ (p q : String) (np nq : EFSM.Node),
      alGet (EFSM.runOps (EFSM.initState tid n0) ops).fileMap p = some np →
      np.isActive = true →
      alGet (EFSM.runOps (EFSM.initState tid n0) ops).fileMap q = some nq →
      nq.isActive = true →
      p = q)
    ∧ (∀ (p : String) (np : EFSM.Node),
      alGet (EFSM.runOps (EFSM.initState tid n0) ops).fileMap p = some np →
      np.isActive = true →
      p ∈ (EFSM.runOps (EFSM.initState tid n0) ops).openTabs) := by
  have hInv := EFSM.inv_runOps ops (EFSM.initState tid n0) (EFSM.inv_init tid n0)
  obtain ⟨hAct, hTabs⟩ := hInv
  constructor
  · intro p q np nq hp hpact hq hqact
    have h1 := hAct p np hp hpact
    have h2 := hAct q nq hq hqact
    have h3 := h1.1.symm.trans h2.1
    injection h3
  · intro p np hp hact
    exact (hAct p np hp hact).2

/-- C5 witness: after the single operation `open "a"`, the record at
`/a` is active, equal to the one concrete active record, and `/a` is an
open tab. -/
theorem c5_witness :
    "/a" ∈ (EFSM.runOps (EFSM.initState "task" 0) [EFSM.TabOp.openOp "a" 1]).openTabs :=
  (c5_single_active_tab [EFSM.TabOp.openOp "a" 1] "task" 0).2 "/a" EFSM.c5node
    (by decide) (by decide)
